import Mathlib

/-!
# Verification of the cricket24-bowling-lab delivery planning engine

Shallow embedding of the repository's two delivery-plan generators:

* the library engine: `seedFromString` / `mulberry32` / `pickWeighted`
  (src/lib/random.ts), `buildWeightedPools` (src/lib/strategyMap.ts),
  `generateDeliveries` (src/lib/deliveryLogic.ts) and `buildOverPlan`
  (src/lib/overLogic.ts), modelled in namespace `Lib`;
* the page engine: `hash32` / `mulberry` / `weightedChoice`,
  `derivePaceWeights` / `deriveSpinWeights` / `allowedTypesFor`,
  `buildVariedPlan` and `buildSpellPlan` (src/types/cricket.ts),
  modelled in namespace `Page`.

Modelling conventions:

* JavaScript strings are modelled as lists of UTF-16 code units
  (`List Nat`); all concrete strings used here are ASCII, for which
  `String.toList`-based code extraction coincides with `charCodeAt`.
* JavaScript numbers are modelled exactly: every weight occurring in the
  source is a decimal with at most one fractional digit and every PRNG
  output is a dyadic rational `v / 2^32`, so all quantities are rationals.
  They are carried by the executable rational type `Q` below (an
  unnormalised numerator/denominator pair, always built with a positive
  denominator); `Q.toRat` maps into `ℚ` for symbolic reasoning.
* 32-bit wrap-around arithmetic (`>>> 0`, `| 0`, `Math.imul`) is modelled
  on `Nat` with explicit `% 2^32`; the bit patterns agree with the
  source's signed/unsigned coercions.
* JavaScript object tables (`Record<K, number>`) are modelled as
  association lists in key-insertion order, with JS update semantics
  (updating an existing key keeps its position, a fresh key is appended),
  matching `Object.entries` enumeration order.
* `Set<string>` keys `"t::L::n"` are modelled by an injective numeric
  encoding of the (type, length, line) triple.
-/

/-! ## Executable rationals -/

structure Q where
  num : Int
  den : Nat
  deriving DecidableEq, Repr

namespace Q

def ofInt (n : Int) : Q := ⟨n, 1⟩

/-- `tenths k` is the exact value `k/10`; every literal weight of the
library engine is a multiple of one tenth. -/
def tenths (k : Int) : Q := ⟨k, 10⟩

def add (a b : Q) : Q := ⟨a.num * b.den + b.num * a.den, a.den * b.den⟩

def sub (a b : Q) : Q := ⟨a.num * b.den - b.num * a.den, a.den * b.den⟩

def mul (a b : Q) : Q := ⟨a.num * b.num, a.den * b.den⟩

/-- `a ≤ b` by cross-multiplication; agrees with the rational order
whenever both denominators are positive (which holds for every value
built by this development). -/
def le (a b : Q) : Prop := a.num * b.den ≤ b.num * a.den

def lt (a b : Q) : Prop := a.num * b.den < b.num * a.den

instance : Add Q := ⟨Q.add⟩
instance : Sub Q := ⟨Q.sub⟩
instance : Mul Q := ⟨Q.mul⟩
instance : LE Q := ⟨Q.le⟩
instance : LT Q := ⟨Q.lt⟩
instance : OfNat Q n := ⟨⟨n, 1⟩⟩

instance (a b : Q) : Decidable (a ≤ b) :=
  inferInstanceAs (Decidable (a.num * (b.den : Int) ≤ b.num * (a.den : Int)))

instance (a b : Q) : Decidable (a < b) :=
  inferInstanceAs (Decidable (a.num * (b.den : Int) < b.num * (a.den : Int)))

/-- Interpretation into the mathematical rationals. -/
def toRat (a : Q) : ℚ := (a.num : ℚ) / (a.den : ℚ)

theorem toRat_add (a b : Q) (ha : a.den ≠ 0) (hb : b.den ≠ 0) :
    (a + b).toRat = a.toRat + b.toRat := by
  show (Q.add a b).toRat = _
  unfold Q.add toRat
  have ha' : (a.den : ℚ) ≠ 0 := Nat.cast_ne_zero.mpr ha
  have hb' : (b.den : ℚ) ≠ 0 := Nat.cast_ne_zero.mpr hb
  push_cast
  field_simp

theorem toRat_sub (a b : Q) (ha : a.den ≠ 0) (hb : b.den ≠ 0) :
    (a - b).toRat = a.toRat - b.toRat := by
  show (Q.sub a b).toRat = _
  unfold Q.sub toRat
  have ha' : (a.den : ℚ) ≠ 0 := Nat.cast_ne_zero.mpr ha
  have hb' : (b.den : ℚ) ≠ 0 := Nat.cast_ne_zero.mpr hb
  push_cast
  field_simp
  ring

theorem toRat_mul (a b : Q) :
    (a * b).toRat = a.toRat * b.toRat := by
  show (Q.mul a b).toRat = _
  unfold Q.mul toRat
  push_cast
  ring

theorem le_iff_toRat (a b : Q) (ha : 0 < a.den) (hb : 0 < b.den) :
    a ≤ b ↔ a.toRat ≤ b.toRat := by
  show Q.le a b ↔ _
  unfold Q.le toRat
  have ha' : (0 : ℚ) < (a.den : ℚ) := by exact_mod_cast ha
  have hb' : (0 : ℚ) < (b.den : ℚ) := by exact_mod_cast hb
  rw [div_le_div_iff₀ ha' hb']
  constructor
  · intro h; exact_mod_cast h
  · intro h; exact_mod_cast h

theorem lt_iff_toRat (a b : Q) (ha : 0 < a.den) (hb : 0 < b.den) :
    a < b ↔ a.toRat < b.toRat := by
  show Q.lt a b ↔ _
  unfold Q.lt toRat
  have ha' : (0 : ℚ) < (a.den : ℚ) := by exact_mod_cast ha
  have hb' : (0 : ℚ) < (b.den : ℚ) := by exact_mod_cast hb
  rw [div_lt_div_iff₀ ha' hb']
  constructor
  · intro h; exact_mod_cast h
  · intro h; exact_mod_cast h

end Q

/-! ## Strings as code-unit lists -/

/-- UTF-16 code units of a (BMP) string; for the ASCII data used in this
development this is exactly JavaScript's `charCodeAt` sequence. -/
def codes (s : String) : List Nat := s.toList.map Char.toNat

/-- ASCII lower-casing of one code unit (JS `toLowerCase` restricted to
the ASCII letters, which is all the source data exercises). -/
def lowerCode (c : Nat) : Nat := if 65 ≤ c ∧ c ≤ 90 then c + 32 else c

def lowerCodes (s : List Nat) : List Nat := s.map lowerCode

/-- Whether the first list occurs contiguously at the head of the
second. -/
def leadMatch : List Nat → List Nat → Bool
  | [], _ => true
  | _ :: _, [] => false
  | a :: as, b :: bs => a == b && leadMatch as bs

/-- JS `String.prototype.includes`: substring containment
(`hasSub s pat` is `s.includes(pat)`). -/
def hasSub : List Nat → List Nat → Bool
  | [], pat => pat.isEmpty
  | a :: rest, pat => leadMatch pat (a :: rest) || hasSub rest pat

/-! ## 32-bit arithmetic and the deterministic source -/

/-- `Math.imul`: 32-bit wrap-around multiplication (bit pattern). -/
def imul (x y : Nat) : Nat := (x * y) % 4294967296

/-- One FNV-1a style step of `seedFromString` / `hash32`:
`h ^= c; h = Math.imul(h, 16777619)`. -/
def fnvStep (h c : Nat) : Nat := imul (h ^^^ c) 16777619

/-- `seedFromString` (src/lib/random.ts): 32-bit FNV-1a style hash with
offset basis 2166136261 and prime 16777619. -/
def seedFromString (s : List Nat) : Nat := s.foldl fnvStep 2166136261

/-- `hash32` (src/types/cricket.ts): textually identical to
`seedFromString`. -/
def hash32 (s : List Nat) : Nat := s.foldl fnvStep 2166136261

/-- The mixing function shared by `mulberry32` (src/lib/random.ts) and
`mulberry` (src/types/cricket.ts), applied to the already-incremented
32-bit state; returns the 32-bit output word. -/
def mulberryMix (a : Nat) : Nat :=
  let t1 := imul (a ^^^ (a >>> 15)) (1 ||| a)
  let t2 := ((t1 + imul (t1 ^^^ (t1 >>> 7)) (61 ||| t1)) % 4294967296) ^^^ t1
  t2 ^^^ (t2 >>> 14)

/-- One PRNG call: advance the 32-bit state by the fixed odd increment
`0x6D2B79F5`, then mix; the output is the word scaled into `[0,1)`. -/
def rand (a : Nat) : Q × Nat :=
  let a' := (a + 0x6D2B79F5) % 4294967296
  (⟨(mulberryMix a' : Int), 4294967296⟩, a')

/-- Decimal representation of a natural number, as code units
(JS template-literal interpolation of a non-negative integer). -/
def natCodes (n : Nat) : List Nat := (Nat.repr n).toList.map Char.toNat

/-! ## JS-object weight tables (association lists in insertion order) -/

/-- Lookup (`w[k]`). -/
def wget {α β : Type} [DecidableEq α] (w : List (α × β)) (k : α) : Option β :=
  (w.find? (fun p => p.1 = k)).map (·.2)

/-- JS object assignment `w[k] = v`: update in place if present,
append if fresh. -/
def wset {α β : Type} [DecidableEq α] : List (α × β) → α → β → List (α × β)
  | [], k, v => [(k, v)]
  | (a, b) :: t, k, v =>
    if a = k then (a, v) :: t else (a, b) :: wset t k v

/-- `w[k] = (w[k] ?? dflt) + δ` (also models `w[k]! += δ` with
`dflt = 0`, and `w[k] = (w[k] || 0) + δ`, which agree on all reachable
states). -/
def wadd {α β : Type} [DecidableEq α] [Add β] (w : List (α × β)) (k : α)
    (dflt δ : β) : List (α × β) :=
  wset w k (((wget w k).getD dflt) + δ)

/-! ## Library engine (namespace `Lib`) -/

namespace Lib

/-- A weight table of the library engine. -/
def Weights (α : Type) := List (α × Q)


/-- Delivery types of src/types/cricket.ts (pace family then spin
family, in the declared order). -/
inductive DeliveryType where
  | standard | slower | outswing | inswing | crossSeam
  | offCutter | legCutter | bouncer
  | offBreak | armBall | legBreak | googly | topSpinner | slider
  deriving DecidableEq, Repr

inductive Length where
  | full | good | short | yorker | backOfLength
  deriving DecidableEq, Repr

inductive Line where
  | offStump | middleStump | legStump | fourthStump | fifthStump
  | outsideOff | wideOutsideOff | atBody | outsideLeg
  deriving DecidableEq, Repr

inductive PhaseId where
  | powerplay | middle | death
  deriving DecidableEq, Repr

inductive PitchType where
  | normal | green | dusty | dry
  deriving DecidableEq, Repr

inductive Arm where
  | r | l
  deriving DecidableEq, Repr

/-- Bowler profile as consumed by the library engine (`id`, `type` and
`strengths` are the fields the generator reads; the remaining fields are
carried to show they cannot influence the output). -/
structure Bowler where
  id : List Nat
  name : List Nat
  arm : Arm
  btype : List Nat
  paceKph : Option (List Nat)
  strengths : List (List Nat)
  strategies : List (List Nat)
  isLegend : Bool
  deriving DecidableEq, Repr

/-- Generated delivery (`DeliveryPlanItem` of src/types/cricket.ts:
over number, resolved triple, purpose). -/
structure Delivery where
  over : Nat
  type : DeliveryType
  length : Length
  line : Line
  purpose : String
  deriving DecidableEq, Repr

def DELIVERY_TYPES_PACE : List DeliveryType :=
  [.standard, .slower, .outswing, .inswing, .crossSeam, .offCutter,
   .legCutter, .bouncer]

def DELIVERY_TYPES_SPIN : List DeliveryType :=
  [.offBreak, .armBall, .legBreak, .googly, .topSpinner, .slider]

def LENGTHS : List Length := [.full, .good, .short, .yorker, .backOfLength]

def LINES : List Line :=
  [.offStump, .middleStump, .legStump, .fourthStump, .fifthStump,
   .outsideOff, .wideOutsideOff, .atBody, .outsideLeg]

/-- Serialized phase value, as interpolated into the seed string. -/
def phaseCodes : PhaseId → List Nat
  | .powerplay => codes "powerplay"
  | .middle => codes "middle"
  | .death => codes "death"

def pitchCodes : PitchType → List Nat
  | .normal => codes "Normal"
  | .green => codes "Green"
  | .dusty => codes "Dusty"
  | .dry => codes "Dry"

/-! ### `pickWeighted` (src/lib/random.ts) -/

/-- The subtraction loop of `pickWeighted`; returns the first item whose
cumulative weight absorbs `r`, else falls back to the last item
(`items[items.length - 1][0]`). `dflt` is only reached on an empty list
(on which the source would throw; every pool built below is
non-empty). -/
def pwGo {α : Type} (dflt : α) : Q → List (α × Q) → α
  | _, [] => dflt
  | r, (a, w) :: rest =>
    if r - w ≤ 0 then a
    else
      match rest with
      | [] => a
      | _ :: _ => pwGo dflt (r - w) rest

/-- `pickWeighted(rng, items)` with the consumed stream value `u`. -/
def pickWeighted {α : Type} (dflt : α) (u : Q) (items : List (α × Q)) : α :=
  let total := items.foldl (fun s p => s + p.2) (0 : Q)
  pwGo dflt (u * total) items

/-! ### `strategyMap.ts`: the three weighted pools -/

def baseDeliveryWeights (b : Bowler) : Weights DeliveryType :=
  let isSpin := hasSub b.btype (codes "spin")
  if isSpin then
    let w := DELIVERY_TYPES_SPIN.foldl (fun w t => wset w t 1) []
    b.strengths.foldl
      (fun w s =>
        let k := lowerCodes s
        let w := if hasSub k (codes "arm") then
          wadd w .armBall 1 (Q.tenths 15) else w
        let w := if hasSub k (codes "googly") then
          wadd w .googly 1 (Q.tenths 15) else w
        let w := if hasSub k (codes "top") then
          wadd w .topSpinner 1 1 else w
        w) w
  else
    let w := DELIVERY_TYPES_PACE.foldl (fun w t => wset w t 1) []
    b.strengths.foldl
      (fun w s =>
        let k := lowerCodes s
        let w := if hasSub k (codes "yorker") then
          wadd w .standard 0 (Q.tenths 2) else w
        let w := if hasSub k (codes "outswing") then
          wadd w .outswing 1 (Q.tenths 15) else w
        let w := if hasSub k (codes "inswing") then
          wadd w .inswing 1 (Q.tenths 15) else w
        let w := if hasSub k (codes "wobble") || hasSub k (codes "seam") then
          wadd w .crossSeam 1 (Q.tenths 12) else w
        let w := if hasSub k (codes "cutter") then
          wadd (wadd w .offCutter 1 (Q.tenths 12)) .legCutter 1 (Q.tenths 12)
          else w
        let w := if hasSub k (codes "bouncer") then
          wadd w .bouncer 1 (Q.tenths 12) else w
        let w := if hasSub k (codes "slower") then
          wadd w .slower 1 (Q.tenths 12) else w
        w) w

def baseLengthWeights (b : Bowler) (phase : PhaseId) : Weights Length :=
  let w := LENGTHS.foldl (fun w l => wset w l 1) []
  let w :=
    match phase with
    | .powerplay =>
      wadd (wadd (wadd w .good 0 (Q.tenths 6)) .backOfLength 0 (Q.tenths 3))
        .full 0 (Q.tenths 3)
    | .middle =>
      wadd (wadd w .good 0 (Q.tenths 4)) .backOfLength 0 (Q.tenths 4)
    | .death =>
      wadd (wadd (wadd w .yorker 0 (Q.tenths 16)) .full 0 (Q.tenths 5))
        .short 0 (Q.tenths 3)
  if hasSub b.btype (codes "spin") then wadd w .good 0 (Q.tenths 4) else w

def baseLineWeights (b : Bowler) (phase : PhaseId) : Weights Line :=
  let w := LINES.foldl (fun w l => wset w l (Q.tenths 5)) []
  let w := wadd w .offStump 0 (Q.tenths 8)
  let w := wadd w .middleStump 0 (Q.tenths 6)
  let w := wadd w .fourthStump 0 (Q.tenths 8)
  let w := wadd w .fifthStump 0 (Q.tenths 5)
  let w :=
    match phase with
    | .powerplay =>
      wadd (wadd w .fourthStump 0 (Q.tenths 4)) .offStump 0 (Q.tenths 3)
    | .death =>
      wadd (wadd (wadd w .wideOutsideOff 0 1) .outsideOff 0 (Q.tenths 6))
        .atBody 0 (Q.tenths 4)
    | .middle => w
  if hasSub b.btype (codes "spin") then
    wadd (wadd w .outsideOff 0 (Q.tenths 4)) .legStump 0 (Q.tenths 3)
  else w

/-- The three pools after `applyPitchModifiers` (missing keys default to
weight 1 before the addition, mirroring `?? 1`). -/
def buildWeightedPools (b : Bowler) (phase : PhaseId) (pitch : PitchType) :
    Weights DeliveryType × Weights Length × Weights Line :=
  let del := baseDeliveryWeights b
  let len := baseLengthWeights b phase
  let lin := baseLineWeights b phase
  match pitch with
  | .green =>
    (wadd del .crossSeam 1 (Q.tenths 6),
     wadd len .backOfLength 1 (Q.tenths 5), lin)
  | .dusty =>
    (wadd (wadd del .offCutter 1 (Q.tenths 7)) .legCutter 1 (Q.tenths 7),
     wadd (wadd len .good 1 (Q.tenths 4)) .full 1 (Q.tenths 2), lin)
  | .dry =>
    (wadd del .slower 1 (Q.tenths 4),
     wadd len .yorker 1 (Q.tenths 5),
     wadd lin .wideOutsideOff 1 (Q.tenths 6))
  | .normal => (del, len, lin)

/-! ### `describePurpose` (src/lib/deliveryLogic.ts) -/

def typeName : DeliveryType → String
  | .standard => "Standard" | .slower => "Slower" | .outswing => "Outswing"
  | .inswing => "Inswing" | .crossSeam => "Cross seam"
  | .offCutter => "Off cutter" | .legCutter => "Leg cutter"
  | .bouncer => "Bouncer" | .offBreak => "Off-break" | .armBall => "Arm ball"
  | .legBreak => "Leg-break" | .googly => "Googly"
  | .topSpinner => "Top-spinner" | .slider => "Slider"

def lengthName : Length → String
  | .full => "Full" | .good => "Good" | .short => "Short"
  | .yorker => "Yorker" | .backOfLength => "Back-of-length"

def lineName : Line → String
  | .offStump => "Off stump" | .middleStump => "Middle stump"
  | .legStump => "Leg stump" | .fourthStump => "4th stump"
  | .fifthStump => "5th stump" | .outsideOff => "Outside off"
  | .wideOutsideOff => "Wide outside off" | .atBody => "At body"
  | .outsideLeg => "Outside leg"

def describePurpose (t : DeliveryType) (L : Length) (n : Line)
    (phase : PhaseId) : String :=
  if L = .yorker ∧ (n = .outsideOff ∨ n = .wideOutsideOff) then
    "Wide yorker: deny leverage and force toe-end"
  else if L = .yorker ∧
      (n = .middleStump ∨ n = .offStump ∨ n = .legStump) then
    "At- stumps yorker: crush base of off/leg"
  else if t = .bouncer ∨ L = .short then
    if n = .atBody then "Body bouncer: rush the hook/pull for top edge"
    else if n = .offStump then "Shoulder-high: glove/edge to ring"
    else "Change-up bouncer: upset length expectation"
  else if t = .outswing ∧ (n = .fourthStump ∨ n = .offStump) then
    "Shape away at 4th/off stump: draw drive and outside edge"
  else if t = .inswing ∧ (n = .middleStump ∨ n = .legStump) then
    "Bring it in at the stumps: play across, LBW/bowled"
  else if t = .crossSeam ∧ (L = .backOfLength ∨ L = .good) then
    "Cross seam into deck: variable bounce for miscues"
  else if t = .offCutter ∨ t = .legCutter then
    "Cutter into surface: grip/hold to beat timing"
  else if t = .slower then
    "Deceive pace: hit toe/end or sky to deep"
  else if t = .offBreak ∧ n = .outsideOff then
    "Tease drive with turn to slip/ring"
  else if t = .armBall ∧ (n = .middleStump ∨ n = .legStump) then
    "Skid on from arm ball: pad/wood threat"
  else if t = .googly ∧ (n = .fourthStump ∨ n = .offStump) then
    "Wrong’un across bat face: inside edge/lbw"
  else if t = .topSpinner then
    "Dip & extra bounce: bat-pad/close-in catch"
  else if phase = .death ∧ (n = .outsideOff ∨ n = .wideOutsideOff) then
    "Death plan: outside-off channel to protect legside power"
  else if phase = .powerplay ∧ (n = .fourthStump ∨ n = .offStump) then
    "New ball channel: challenge outside edge"
  else
    typeName t ++ " • " ++ lengthName L ++ " at " ++ lineName n

/-! ### Trap pattern library -/

/-- A forced partial delivery (`Partial<DeliveryPlanItem>`). -/
structure Force where
  ftype : Option DeliveryType
  flength : Option Length
  fline : Option Line
  fpurpose : Option String
  deriving DecidableEq, Repr

def mkForce (t : DeliveryType) (L : Length) (n : Line) (p : String) : Force :=
  ⟨some t, some L, some n, some p⟩

structure Trap where
  setup1 : Force
  setup2 : Force
  payoff : Force
  deriving DecidableEq, Repr

def trapForPace : PhaseId → Trap
  | .powerplay =>
    ⟨mkForce .outswing .good .fourthStump
       "Set-up: away shape to draw the drive",
     mkForce .outswing .good .offStump "Reinforce away channel",
     mkForce .inswing .full .middleStump "Payoff: in-ducker at pads/wood"⟩
  | .death =>
    ⟨mkForce .standard .yorker .wideOutsideOff "Set-up: wide yorker",
     mkForce .standard .yorker .outsideOff "Repeat wide yorker variant",
     mkForce .bouncer .short .atBody "Payoff: surprise bumper for top edge"⟩
  | .middle =>
    ⟨mkForce .crossSeam .backOfLength .offStump "Set-up: deck variation",
     mkForce .slower .good .outsideOff "Change pace and width",
     mkForce .inswing .full .middleStump "Payoff: in-line at stumps"⟩

def trapForSpin : PhaseId → Trap
  | .powerplay =>
    ⟨mkForce .offBreak .good .outsideOff "Set-up: tease drive vs ring",
     mkForce .topSpinner .good .offStump "Dip & bounce to draw forward",
     mkForce .armBall .full .middleStump "Payoff: skid on to pad/wood"⟩
  | .death =>
    ⟨mkForce .slider .good .outsideOff "Flat & quick wide line",
     mkForce .offBreak .good .fourthStump "Turn away to keep reaching",
     mkForce .armBall .full .legStump "Payoff: beat across the line"⟩
  | .middle =>
    ⟨mkForce .offBreak .good .outsideOff "Drive temptation with turn risk",
     mkForce .googly .good .fourthStump "Opposite turn threat",
     mkForce .armBall .full .middleStump "Skid on for lbw/bowled"⟩

/-! ### `generateDeliveries` (src/lib/deliveryLogic.ts) -/

def typeIdx : DeliveryType → Nat
  | .standard => 0 | .slower => 1 | .outswing => 2 | .inswing => 3
  | .crossSeam => 4 | .offCutter => 5 | .legCutter => 6 | .bouncer => 7
  | .offBreak => 8 | .armBall => 9 | .legBreak => 10 | .googly => 11
  | .topSpinner => 12 | .slider => 13

def lengthIdx : Length → Nat
  | .full => 0 | .good => 1 | .short => 2 | .yorker => 3 | .backOfLength => 4

def lineIdx : Line → Nat
  | .offStump => 0 | .middleStump => 1 | .legStump => 2 | .fourthStump => 3
  | .fifthStump => 4 | .outsideOff => 5 | .wideOutsideOff => 6 | .atBody => 7
  | .outsideLeg => 8

/-- Injective encoding of the `Set<string>` key `"t::L::n"`. -/
def tripleKey (t : DeliveryType) (L : Length) (n : Line) : Nat :=
  typeIdx t * 45 + lengthIdx L * 9 + lineIdx n

/-- The generation context fixed for one `generateDeliveries` call. -/
structure Ctx where
  delPool : Weights DeliveryType
  lenPool : Weights Length
  linPool : Weights Line
  phase : PhaseId

/-- One attempt of the `drawUnique` retry loop: draw (or take the forced
value for) type, length and line — consuming one stream value per
unforced dimension — and key the triple. -/
def drawOnce (c : Ctx) (force : Option Force) (st : Nat) :
    DeliveryType × Length × Line × Nat :=
  let (t, st) :=
    match force.bind (·.ftype) with
    | some t => (t, st)
    | none => let (u, st') := rand st; (pickWeighted .standard u c.delPool, st')
  let (L, st) :=
    match force.bind (·.flength) with
    | some L => (L, st)
    | none => let (u, st') := rand st; (pickWeighted .full u c.lenPool, st')
  let (n, st) :=
    match force.bind (·.fline) with
    | some n => (n, st)
    | none => let (u, st') := rand st; (pickWeighted .offStump u c.linPool, st')
  (t, L, n, st)

/-- The bounded retry loop of `drawUnique` (`attempts < 200`): `none`
means all attempts hit an already-used triple. -/
def drawLoop (c : Ctx) (force : Option Force) :
    Nat → Nat → List Nat → Option (Delivery × List Nat) × Nat
  | 0, st, _ => (none, st)
  | fuel + 1, st, used =>
    let (t, L, n, st') := drawOnce c force st
    let k := tripleKey t L n
    if used.contains k then drawLoop c force fuel st' used
    else
      (some ({ over := 1, type := t, length := L, line := n,
               purpose := ((force.bind (·.fpurpose)).getD
                 (describePurpose t L n c.phase)) }, k :: used), st')

/-- `drawUnique`: retry up to 200 times, then fall back to the first
entries of the three pools (without recording the triple as used). -/
def drawUnique (c : Ctx) (force : Option Force) (st : Nat)
    (used : List Nat) : Delivery × Nat × List Nat :=
  match drawLoop c force 200 st used with
  | (some (d, used'), st') => (d, st', used')
  | (none, st') =>
    let t := ((c.delPool.head?).map (·.1)).getD .standard
    let L := ((c.lenPool.head?).map (·.1)).getD .full
    let n := ((c.linPool.head?).map (·.1)).getD .offStump
    ({ over := 1, type := t, length := L, line := n,
       purpose := describePurpose t L n c.phase }, st', used)

/-- The fill loop `for (let i = 0; i < balls; i++) out.push(drawUnique())`. -/
def fillSeq (c : Ctx) : Nat → Nat → List Nat →
    List Delivery × Nat × List Nat
  | 0, st, used => ([], st, used)
  | n + 1, st, used =>
    let (d, st', used') := drawUnique c none st used
    let (rest, st'', used'') := fillSeq c n st' used'
    (d :: rest, st'', used'')

/-- The seed string and hash of one `generateDeliveries` call:
`seedFromString(`${bowler.id}|${phase}|${pitch}|${seedHint}`)`. Note the
requested ball count is not part of the hashed string. -/
def generateSeed (b : Bowler) (phase : PhaseId) (pitch : PitchType)
    (seedHint : List Nat) : Nat :=
  seedFromString
    (b.id ++ [124] ++ phaseCodes phase ++ [124] ++ pitchCodes pitch ++
     [124] ++ seedHint)

/-- The drawing context of one `generateDeliveries` call. -/
def gdCtx (b : Bowler) (phase : PhaseId) (pitch : PitchType) : Ctx :=
  let pools := buildWeightedPools b phase pitch
  ⟨pools.1, pools.2.1, pools.2.2, phase⟩

/-- `isSpin ? trapForSpin(phase) : trapForPace(phase)`. -/
def trapFor (b : Bowler) (phase : PhaseId) : Trap :=
  if hasSub b.btype (codes "spin") then trapForSpin phase
  else trapForPace phase

def generateDeliveries (b : Bowler) (balls : Nat) (phase : PhaseId)
    (pitch : PitchType) (seedHint : List Nat) : List Delivery :=
  let seed := generateSeed b phase pitch seedHint
  let trap := trapFor b phase
  let c : Ctx := gdCtx b phase pitch
  let (out, st, used) := fillSeq c balls seed []
  if balls ≥ 6 then
    let s := balls / 2 - 2
    let (d1, st1, u1) := drawUnique c (some trap.setup1) st used
    let out := out.set s d1
    let (d2, st2, u2) := drawUnique c (some trap.setup2) st1 u1
    let out := out.set (s + 1) d2
    let (d3, _, _) := drawUnique c (some trap.payoff) st2 u2
    out.set (s + 2) d3
  else out

/-- `buildOverPlan` (src/lib/overLogic.ts). -/
def buildOverPlan (b : Bowler) (overs : Nat) (phase : PhaseId)
    (pitch : PitchType) : List Delivery :=
  let totalBalls := overs * 6
  let seq := generateDeliveries b totalBalls phase pitch
    (codes "ov:" ++ natCodes overs)
  seq.enum.map (fun p => { p.2 with over := p.1 / 6 + 1 })

end Lib

/-! ## Page engine (namespace `Page`) -/

namespace Page

/-- Ball types of the page engine (`PaceBall` and `SpinBall` of
src/types/cricket.ts, plus the `"wrong’un"` key that its spin weight
table carries). -/
inductive Ball where
  | outswing | inswing | seam | cutter | slowerBall | knuckle | bouncer
  | legBreak | googly | topSpinner | wrongUn | offBreak | armBall | carrom
  deriving DecidableEq, Repr

inductive Length where
  | short | backOfLength | goodLength | full | yorker | yorkerIsh
  deriving DecidableEq, Repr

inductive Line where
  | outsideOff | fourthStump | offStump | middle | legStump | atBody
  | fourthFifthStump
  deriving DecidableEq, Repr

inductive PhaseId where
  | powerplay | middle | death
  deriving DecidableEq, Repr

inductive PitchType where
  | normal | green | dusty | flat
  deriving DecidableEq, Repr

/-- `BowlerType` of the page component. -/
inductive BowlerType where
  | pace | swing | seam | legspin | offspin | leftarmPace | leftarmSpin
  deriving DecidableEq, Repr

inductive Arm where
  | r | l
  deriving DecidableEq, Repr

/-- The string value of the `BowlerType` union member, for the
`bowler.type.includes("spin")` test. -/
def btypeCodes : BowlerType → List Nat
  | .pace => codes "pace"
  | .swing => codes "swing"
  | .seam => codes "seam"
  | .legspin => codes "legspin"
  | .offspin => codes "offspin"
  | .leftarmPace => codes "leftarm-pace"
  | .leftarmSpin => codes "leftarm-spin"

structure Bowler where
  id : List Nat
  name : List Nat
  country : List Nat
  iplTeam : Option (List Nat)
  btype : BowlerType
  arm : Arm
  paceKph : Option (List Nat)
  strengths : List (List Nat)
  strategies : List Nat
  isLegend : Bool
  deriving DecidableEq, Repr

/-- `DeliveryPlanItem` of the page component. -/
structure Delivery where
  over : Nat
  ball : Nat
  type : Ball
  length : Length
  line : Line
  pitchPurpose : String
  deriving DecidableEq, Repr

def phaseCodes : PhaseId → List Nat
  | .powerplay => codes "powerplay"
  | .middle => codes "middle"
  | .death => codes "death"

def pitchCodes : PitchType → List Nat
  | .normal => codes "Normal"
  | .green => codes "Green"
  | .dusty => codes "Dusty"
  | .flat => codes "Flat"

/-! ### `weightedChoice` -/

/-- The scan loop of `weightedChoice`: skip disallowed keys, clamp
weights to zero, return the first key absorbing the draw; `fb` (the
first key of the table, as `Object.keys(weights)[0]`) on fall-through. -/
def wcGo {α : Type} [DecidableEq α] (disallow : List α) (fb : α) :
    Q → List (α × Int) → α
  | _, [] => fb
  | r, (a, v) :: rest =>
    if disallow.contains a then wcGo disallow fb r rest
    else
      let w := max 0 v
      if r < Q.ofInt w then a else wcGo disallow fb (r - Q.ofInt w) rest

/-- `weightedChoice(rng, weights, disallow)` with the consumed stream
value `u`; `dflt` is only reached on an empty table (on which the
source would index `undefined`; every table passed below is
non-empty). -/
def weightedChoice {α : Type} [DecidableEq α] (dflt : α) (u : Q)
    (weights : List (α × Int)) (disallow : List α) : α :=
  let total : Int := weights.foldl
    (fun s p => if disallow.contains p.1 then s else s + max 0 p.2) 0
  wcGo disallow (((weights.head?).map (·.1)).getD dflt) (u * Q.ofInt total)
    weights

/-! ### Strength/strategy helpers -/

/-- `hasAny(strengths, needles)`: some lower-cased strength contains
some needle. -/
def hasAny (strengths : List (List Nat)) (needles : List (List Nat)) : Bool :=
  needles.any (fun n => strengths.any (fun x => hasSub (lowerCodes x) n))

inductive PacePrimary where
  | seam | swing | mixed
  deriving DecidableEq, Repr

def primaryPaceStyle (b : Bowler) (strengths : List (List Nat)) :
    PacePrimary :=
  let s := strengths.map lowerCodes
  let seam := hasAny s [codes "seam", codes "wobble"]
  let swing := hasAny s [codes "swing", codes "outswing", codes "inswing"]
  if seam && !swing then .seam
  else if swing && !seam then .swing
  else if seam && swing then .mixed
  else if b.btype = .seam then .seam
  else if b.btype = .swing || b.btype = .leftarmPace then .swing
  else .mixed

inductive SpinPrimary where
  | leg | off | mixed
  deriving DecidableEq, Repr

def primarySpinStyle (b : Bowler) (strengths : List (List Nat)) :
    SpinPrimary :=
  let s := strengths.map lowerCodes
  let leg := hasAny s
    [codes "leg-break", codes "leg break", codes "googly", codes "wrong"]
  let off := hasAny s
    [codes "off-break", codes "off break", codes "arm ball", codes "carrom"]
  if leg && !off then .leg
  else if off && !leg then .off
  else if leg && off then .mixed
  else if b.btype = .legspin then .leg
  else if b.btype = .offspin || b.btype = .leftarmSpin then .off
  else .mixed

/-! ### Weight tables (fixed-key records, as the source's `Record`s) -/

structure PaceW where
  outswing : Int
  inswing : Int
  seam : Int
  cutter : Int
  slowerBall : Int
  knuckle : Int
  bouncer : Int
  deriving DecidableEq, Repr

/-- `Object.entries` of the pace table, in literal key order. -/
def PaceW.toList (w : PaceW) : List (Ball × Int) :=
  [(.outswing, w.outswing), (.inswing, w.inswing), (.seam, w.seam),
   (.cutter, w.cutter), (.slowerBall, w.slowerBall),
   (.knuckle, w.knuckle), (.bouncer, w.bouncer)]

structure SpinW where
  legBreak : Int
  googly : Int
  topSpinner : Int
  wrongUn : Int
  offBreak : Int
  armBall : Int
  carrom : Int
  deriving DecidableEq, Repr

def SpinW.toList (w : SpinW) : List (Ball × Int) :=
  [(.legBreak, w.legBreak), (.googly, w.googly),
   (.topSpinner, w.topSpinner), (.wrongUn, w.wrongUn),
   (.offBreak, w.offBreak), (.armBall, w.armBall), (.carrom, w.carrom)]

structure LengthW where
  short : Int
  backOfLength : Int
  goodLength : Int
  full : Int
  yorker : Int
  yorkerIsh : Int
  deriving DecidableEq, Repr

def LengthW.toList (w : LengthW) : List (Length × Int) :=
  [(.short, w.short), (.backOfLength, w.backOfLength),
   (.goodLength, w.goodLength), (.full, w.full), (.yorker, w.yorker),
   (.yorkerIsh, w.yorkerIsh)]

structure LineW where
  outsideOff : Int
  fourthStump : Int
  offStump : Int
  middle : Int
  legStump : Int
  atBody : Int
  fourthFifthStump : Int
  deriving DecidableEq, Repr

def LineW.toList (w : LineW) : List (Line × Int) :=
  [(.outsideOff, w.outsideOff), (.fourthStump, w.fourthStump),
   (.offStump, w.offStump), (.middle, w.middle), (.legStump, w.legStump),
   (.atBody, w.atBody), (.fourthFifthStump, w.fourthFifthStump)]

/-- `allowedTypesFor` (src/types/cricket.ts): legal delivery families by
bowler type. -/
def allowedTypesFor (b : Bowler) : List Ball :=
  if b.btype = .offspin ∨ b.btype = .leftarmSpin then
    [.offBreak, .armBall, .carrom, .topSpinner]
  else if b.btype = .legspin then
    [.legBreak, .googly, .topSpinner]
  else
    [.outswing, .inswing, .seam, .cutter, .slowerBall, .knuckle, .bouncer]

def paceBase (phase : PhaseId) : PaceW :=
  { outswing := if phase = .powerplay then 10 else 4
    inswing := if phase = .powerplay then 9 else 4
    seam := if phase = .middle then 14 else 10
    cutter := if phase = .middle then 8 else 6
    slowerBall := if phase = .middle then 8 else 9
    knuckle := if phase = .death then 5 else 2
    bouncer := if phase = .death then 8 else 6 }

def pacePrimaryBoost (primary : PacePrimary) (base : PaceW) : PaceW :=
  match primary with
  | .seam =>
    { base with
      seam := base.seam + 12
      outswing := base.outswing + 3
      inswing := base.inswing + 3
      cutter := base.cutter + 2 }
  | .swing =>
    { base with
      outswing := base.outswing + 10
      inswing := base.inswing + 10
      seam := base.seam + 4 }
  | .mixed =>
    { base with
      seam := base.seam + 6
      outswing := base.outswing + 6
      inswing := base.inswing + 5 }

def pacePitchBoost (pitch : PitchType) (base : PaceW) : PaceW :=
  match pitch with
  | .green =>
    { base with
      seam := base.seam + 6
      outswing := base.outswing + 3
      inswing := base.inswing + 2
      bouncer := base.bouncer + 2 }
  | .dusty =>
    { base with
      cutter := base.cutter + 5
      slowerBall := base.slowerBall + 4 }
  | .flat =>
    { base with
      slowerBall := base.slowerBall + 2
      knuckle := base.knuckle + 2
      bouncer := base.bouncer + 1 }
  | .normal => base

def paceArmBoost (arm : Arm) (base : PaceW) : PaceW :=
  if arm = .l then { base with inswing := base.inswing + 2 } else base

def paceStrengthS1 (strengths : List (List Nat)) (base : PaceW) : PaceW :=
  if hasAny strengths [codes "wobble", codes "seam"] then
    { base with seam := base.seam + 6 } else base

def paceStrengthS2 (strengths : List (List Nat)) (base : PaceW) : PaceW :=
  if hasAny strengths [codes "outswing"] then
    { base with outswing := base.outswing + 6 } else base

def paceStrengthS3 (strengths : List (List Nat)) (base : PaceW) : PaceW :=
  if hasAny strengths [codes "inswing"] then
    { base with inswing := base.inswing + 6 } else base

def paceStrengthS4 (strengths : List (List Nat)) (base : PaceW) : PaceW :=
  if hasAny strengths [codes "swing"] then
    { base with
      outswing := base.outswing + 4
      inswing := base.inswing + 4 }
  else base

def paceStrengthS5 (strengths : List (List Nat)) (base : PaceW) : PaceW :=
  if hasAny strengths [codes "cutter"] then
    { base with cutter := base.cutter + 6 } else base

def paceStrengthS6 (strengths : List (List Nat)) (base : PaceW) : PaceW :=
  if hasAny strengths [codes "slower"] then
    { base with slowerBall := base.slowerBall + 6 } else base

def paceStrengthS7 (strengths : List (List Nat)) (base : PaceW) : PaceW :=
  if hasAny strengths [codes "knuckle"] then
    { base with knuckle := base.knuckle + 5 } else base

def paceStrengthS8 (strengths : List (List Nat)) (base : PaceW) : PaceW :=
  if hasAny strengths [codes "bouncer"] then
    { base with bouncer := base.bouncer + 5 } else base

def paceStrengthBoost (strengths : List (List Nat)) (base : PaceW) : PaceW :=
  paceStrengthS8 strengths (paceStrengthS7 strengths (paceStrengthS6
    strengths (paceStrengthS5 strengths (paceStrengthS4 strengths
      (paceStrengthS3 strengths (paceStrengthS2 strengths
        (paceStrengthS1 strengths base)))))))

def paceStrategyBoost (s : List Nat) (base : PaceW) : PaceW :=
  let base := if hasSub s (codes "hard length") || hasSub s (codes "4th stump")
    then
    { base with
      seam := base.seam + 6
      outswing := base.outswing + 2 }
    else base
  let base := if hasSub s (codes "swing") then
    { base with
      outswing := base.outswing + 3
      inswing := base.inswing + 3 }
    else base
  let base := if hasSub s (codes "bounce") || hasSub s (codes "short") then
    { base with bouncer := base.bouncer + 4 } else base
  let base := if hasSub s (codes "change") || hasSub s (codes "variation") ||
      hasSub s (codes "cutter") then
    { base with cutter := base.cutter + 4 } else base
  base

def derivePaceWeights (b : Bowler) (phase : PhaseId) (pitch : PitchType)
    (strengthsIn : List (List Nat)) (strategy : List Nat) : PaceW :=
  let strengths := strengthsIn.map lowerCodes
  paceStrategyBoost (lowerCodes strategy)
    (paceStrengthBoost strengths
      (paceArmBoost b.arm
        (pacePitchBoost pitch
          (pacePrimaryBoost (primaryPaceStyle b strengths)
            (paceBase phase)))))

def spinBase (phase : PhaseId) : SpinW :=
  { legBreak := 12
    googly := if phase = .middle then 8 else 7
    topSpinner := if phase = .powerplay then 8 else 7
    wrongUn := if phase = .death then 7 else 6
    offBreak := 12
    armBall := if phase = .powerplay then 9 else 7
    carrom := if phase = .middle then 7 else 6 }

def spinPrimaryBoost (primary : SpinPrimary) (base : SpinW) : SpinW :=
  match primary with
  | .leg =>
    { base with
      legBreak := base.legBreak + 10
      googly := base.googly + 8
      topSpinner := base.topSpinner + 3 }
  | .off =>
    { base with
      offBreak := base.offBreak + 10
      armBall := base.armBall + 8
      carrom := base.carrom + 3 }
  | .mixed =>
    { base with
      legBreak := base.legBreak + 6
      offBreak := base.offBreak + 6
      googly := base.googly + 4
      armBall := base.armBall + 4 }

def spinPitchBoost (pitch : PitchType) (base : SpinW) : SpinW :=
  match pitch with
  | .dusty =>
    { base with
      legBreak := base.legBreak + 6
      offBreak := base.offBreak + 6
      topSpinner := base.topSpinner + 2 }
  | .green =>
    { base with
      armBall := base.armBall + 3
      offBreak := base.offBreak + 2 }
  | .flat =>
    { base with
      topSpinner := base.topSpinner + 4
      wrongUn := base.wrongUn + 2 }
  | .normal => base

def spinStrengthS1 (strengths : List (List Nat)) (base : SpinW) : SpinW :=
  if hasAny strengths [codes "leg-break", codes "leg break"] then
    { base with legBreak := base.legBreak + 8 } else base

def spinStrengthS2 (strengths : List (List Nat)) (base : SpinW) : SpinW :=
  if hasAny strengths [codes "googly"] then
    { base with googly := base.googly + 8 } else base

def spinStrengthS3 (strengths : List (List Nat)) (base : SpinW) : SpinW :=
  if hasAny strengths [codes "top-spinner", codes "top spinner"]
    then { base with topSpinner := base.topSpinner + 6 } else base

def spinStrengthS4 (strengths : List (List Nat)) (base : SpinW) : SpinW :=
  if hasAny strengths
      [codes "wrong", codes "wrong’un", codes "wrongun"] then
    { base with wrongUn := base.wrongUn + 6 } else base

def spinStrengthS5 (strengths : List (List Nat)) (base : SpinW) : SpinW :=
  if hasAny strengths [codes "off-break", codes "off break"] then
    { base with offBreak := base.offBreak + 8 } else base

def spinStrengthS6 (strengths : List (List Nat)) (base : SpinW) : SpinW :=
  if hasAny strengths [codes "arm ball"] then
    { base with armBall := base.armBall + 8 } else base

def spinStrengthS7 (strengths : List (List Nat)) (base : SpinW) : SpinW :=
  if hasAny strengths [codes "carrom"] then
    { base with carrom := base.carrom + 8 } else base

def spinStrengthBoost (strengths : List (List Nat)) (base : SpinW) : SpinW :=
  spinStrengthS7 strengths (spinStrengthS6 strengths (spinStrengthS5
    strengths (spinStrengthS4 strengths (spinStrengthS3 strengths
      (spinStrengthS2 strengths (spinStrengthS1 strengths base))))))

def spinStrategyBoost (st : List Nat) (base : SpinW) : SpinW :=
  let base := if hasSub st (codes "attack stumps") then
    { base with
      armBall := base.armBall + 5
      topSpinner := base.topSpinner + 3 }
    else base
  let base := if hasSub st (codes "slip") || hasSub st (codes "short") ||
      hasSub st (codes "third") then
    { base with
      legBreak := base.legBreak + 3
      offBreak := base.offBreak + 3
      topSpinner := base.topSpinner + 2 }
    else base
  base

def spinLeftArmBoost (t : BowlerType) (base : SpinW) : SpinW :=
  if t = .leftarmSpin then
    { base with
      armBall := base.armBall + 3
      offBreak := base.offBreak + 3 }
  else base

/-- Clamp to family: zero out every key outside `allowedTypesFor b`. -/
def spinClamp (b : Bowler) (base : SpinW) : SpinW :=
  let allowed := allowedTypesFor b
  let clamp := fun (k : Ball) (v : Int) => if allowed.contains k then v else 0
  { legBreak := clamp .legBreak base.legBreak
    googly := clamp .googly base.googly
    topSpinner := clamp .topSpinner base.topSpinner
    wrongUn := clamp .wrongUn base.wrongUn
    offBreak := clamp .offBreak base.offBreak
    armBall := clamp .armBall base.armBall
    carrom := clamp .carrom base.carrom }

def deriveSpinWeights (b : Bowler) (phase : PhaseId) (pitch : PitchType)
    (strengthsIn : List (List Nat)) (strategy : List Nat) : SpinW :=
  let strengths := strengthsIn.map lowerCodes
  spinClamp b
    (spinLeftArmBoost b.btype
      (spinStrategyBoost (lowerCodes strategy)
        (spinStrengthBoost strengths
          (spinPitchBoost pitch
            (spinPrimaryBoost (primarySpinStyle b strengths)
              (spinBase phase))))))

def lengthWeightsFor (bowler : Bowler) (phase : PhaseId)
    (pitch : PitchType) : LengthW :=
  let base : LengthW :=
    { short := if phase = .death then 6 else 7
      backOfLength := if phase = .powerplay then 8 else 9
      goodLength := 11
      full := if phase = .powerplay then 9 else 8
      yorker := if phase = .death then 14 else 3
      yorkerIsh := 5 }
  let base :=
    match pitch with
    | .green =>
      { base with
        backOfLength := base.backOfLength + 3
        goodLength := base.goodLength + 2 }
    | .dusty =>
      { base with
        backOfLength := base.backOfLength + 2
        full := base.full + 1 }
    | .flat =>
      { base with
        yorker := base.yorker + 6
        goodLength := base.goodLength - 2 }
    | .normal => base
  if hasSub (btypeCodes bowler.btype) (codes "spin") then
    { base with
      short := base.short - 4
      yorker := base.yorker - 6
      yorkerIsh := base.yorkerIsh - 3 }
  else base

def lineWeightsFor (bowler : Bowler) (phase : PhaseId)
    (pitch : PitchType) : LineW :=
  let base : LineW :=
    { outsideOff := 8
      fourthStump := 12
      offStump := 10
      middle := 7
      legStump := 6
      atBody := if phase = .death then 8 else 6
      fourthFifthStump := if phase = .death then 10 else 6 }
  let base := if hasSub (btypeCodes bowler.btype) (codes "spin") then
    { base with
      legStump := base.legStump + 3
      outsideOff := base.outsideOff + 2 }
  else { base with fourthStump := base.fourthStump + 2 }
  match pitch with
  | .flat =>
    { base with
      fourthFifthStump := base.fourthFifthStump + 3
      middle := base.middle + 1 }
  | _ => base

/-! ### `purposeFor` -/

def purposeFor (ballType : Ball) (line : Line) (length : Length) : String :=
  if length = .yorker then
    if line = .fourthStump ∨ line = .fourthFifthStump ∨ line = .outsideOff
    then "deny arc; toe crusher"
    else "base of stumps / toes"
  else if ballType = .outswing then "draw drive, find edge"
  else if ballType = .inswing then "attack pads, bowled/LBW"
  else if ballType = .seam then "nibble outside edge"
  else if ballType = .cutter then "hold in the pitch, mistime"
  else if ballType = .slowerBall then "beat swing, hit to field"
  else if ballType = .knuckle then "deceive pace, miscued loft"
  else if ballType = .bouncer then "push back, surprise top-edge"
  else if ballType = .legBreak then "draw drive, slip in play"
  else if ballType = .googly then "beat inside edge; LBW/bowled"
  else if ballType = .topSpinner then "extra bounce for splice"
  else if ballType = .wrongUn then "surprise wicket ball"
  else if ballType = .offBreak then "drag to infield, catch"
  else if ballType = .armBall then "skid at stumps/pads"
  else if ballType = .carrom then "induce outside edge"
  else if length = .goodLength ∧ line = .fourthStump then
    "outside edge chance"
  else if length = .short ∧ line = .atBody then "cramp for room"
  else "create wicket chance / dot ball"

/-! ### `buildVariedPlan` -/

/-- Context fixed for one `buildVariedPlan` call. -/
structure Ctx where
  typesBase : List (Ball × Int)
  allowed : List Ball
  isSpin : Bool
  btype : BowlerType
  phase : PhaseId
  lenBase : LengthW
  linBase : LineW

/-- The per-ball local type pool: family clamp (step A), then safety
entry, then the phase/ball pulse additions (step B, type table part). -/
def localTypeFor (c : Ctx) (i : Nat) : List (Ball × Int) :=
  let ball := i % 6 + 1
  let lt := c.typesBase.filter (fun p => c.allowed.contains p.1)
  let lt := if lt.isEmpty then
    (if c.isSpin then [(.offBreak, 1)] else [(.seam, 1)]) else lt
  if !c.isSpin then
    let isPP := c.phase = .powerplay
    let isMid := c.phase = .middle
    let isDeath := c.phase = .death
    let lt := if ball = 6 ∨ (isDeath ∧ (ball = 3 ∨ ball = 6)) then
      wadd lt .bouncer 0 2 else lt
    let lt := if c.btype = .seam ∧
        ((isPP ∧ (ball = 1 ∨ ball = 2)) ∨ (isDeath ∧ (ball = 3 ∨ ball = 6)) ∨
         ball = 6) then
      wadd (wadd lt .outswing 0 2) .inswing 0 2 else lt
    if isPP then
      let lt := if ball = 1 ∨ ball = 2 then
        wadd (wadd lt .outswing 0 5) .inswing 0 3 else lt
      let lt := if ball = 3 ∨ ball = 4 then wadd lt .seam 0 3 else lt
      let lt := if ball = 4 then wadd lt .bouncer 0 3 else lt
      if ball = 5 ∨ ball = 6 then
        wadd (wadd lt .cutter 0 2) .seam 0 2 else lt
    else if isMid then
      let lt := if ball = 1 ∨ ball = 2 then wadd lt .seam 0 4 else lt
      let lt := if ball = 3 ∨ ball = 4 then
        wadd (wadd lt .cutter 0 5) .slowerBall 0 4 else lt
      if ball = 5 then wadd lt .bouncer 0 3 else lt
    else
      if ball = 2 ∨ ball = 5 then wadd lt .bouncer 0 6 else lt
  else
    if ball = 3 ∨ ball = 6 then
      let lt := if (wget lt .googly).isSome then
        wadd lt .googly 0 6 else lt
      let lt := if (wget lt .topSpinner).isSome then
        wadd lt .topSpinner 0 4 else lt
      if (wget lt .armBall).isSome then wadd lt .armBall 0 3 else lt
    else lt

/-- The per-ball local length table (step B, length part). -/
def localLengthFor (c : Ctx) (i : Nat) : LengthW :=
  let ball := i % 6 + 1
  let w := c.lenBase
  if !c.isSpin then
    let isPP := c.phase = .powerplay
    let isMid := c.phase = .middle
    let isDeath := c.phase = .death
    let w := if ball = 6 ∨ (isDeath ∧ (ball = 3 ∨ ball = 6)) then
      { w with yorker := w.yorker + 10 } else w
    if isPP then
      let w := if ball = 1 ∨ ball = 2 then { w with full := w.full + 5 } else w
      let w := if ball = 3 ∨ ball = 4 then
        { w with backOfLength := w.backOfLength + 3 } else w
      let w := if ball = 4 then { w with short := w.short + 3 } else w
      if ball = 5 ∨ ball = 6 then { w with yorker := w.yorker + 6 } else w
    else if isMid then
      let w := if ball = 1 ∨ ball = 2 then
        { w with backOfLength := w.backOfLength + 4 } else w
      if ball = 6 then { w with yorker := w.yorker + 6 } else w
    else
      let w := if ball = 1 ∨ ball = 4 then
        { w with yorker := w.yorker + 8 } else w
      let w := if ball = 2 ∨ ball = 5 then
        { w with short := w.short + 5 } else w
      if ball = 3 ∨ ball = 6 then { w with yorker := w.yorker + 8 } else w
  else w

/-- The per-ball local line table (step B, line part). -/
def localLineFor (c : Ctx) (i : Nat) : LineW :=
  let ball := i % 6 + 1
  let w := c.linBase
  if !c.isSpin then
    let isPP := c.phase = .powerplay
    let isMid := c.phase = .middle
    let isDeath := c.phase = .death
    let w := if ball = 6 ∨ (isDeath ∧ (ball = 3 ∨ ball = 6)) then
      { w with fourthFifthStump := w.fourthFifthStump + 6 } else w
    if isPP then
      let w := if ball = 1 ∨ ball = 2 then
        { w with
          fourthStump := w.fourthStump + 5
          offStump := w.offStump + 3 }
        else w
      let w := if ball = 4 then { w with atBody := w.atBody + 4 } else w
      if ball = 5 ∨ ball = 6 then
        { w with
          fourthFifthStump := w.fourthFifthStump + 4
          offStump := w.offStump + 2 }
        else w
    else if isMid then
      let w := if ball = 1 ∨ ball = 2 then
        { w with fourthStump := w.fourthStump + 3 } else w
      let w := if ball = 3 ∨ ball = 4 then
        { w with outsideOff := w.outsideOff + 3 } else w
      let w := if ball = 5 then { w with atBody := w.atBody + 3 } else w
      if ball = 6 then
        { w with
          offStump := w.offStump + 3
          fourthFifthStump := w.fourthFifthStump + 3 }
        else w
    else
      let w := if ball = 1 ∨ ball = 4 then
        { w with fourthFifthStump := w.fourthFifthStump + 6 } else w
      let w := if ball = 2 ∨ ball = 5 then
        { w with atBody := w.atBody + 5 } else w
      if ball = 3 ∨ ball = 6 then { w with offStump := w.offStump + 6 }
      else w
  else w

/-- `recentTypes.push(t); if (recentTypes.length > 2) recentTypes.shift()`. -/
def recPush (rec : List Ball) (t : Ball) : List Ball :=
  let r := rec ++ [t]
  if r.length > 2 then r.tail else r

/-- The anti-streak disallow list (step C). -/
def disallowFor (rec : List Ball) : List Ball :=
  if 2 ≤ rec.length then
    let last := rec.getD (rec.length - 1) .seam
    let prev := rec.getD (rec.length - 2) .seam
    if last = prev then [last] else []
  else []

/-- One ball of `buildVariedPlan` (steps A–D, coherence, purpose,
stamping); returns the delivery, the advanced PRNG state and the
updated `recentTypes`. -/
def bvpStep (c : Ctx) (i : Nat) (st : Nat) (rec : List Ball) :
    Delivery × Nat × List Ball :=
  let over := i / 6 + 1
  let ball := i % 6 + 1
  let localType := localTypeFor c i
  let localLength := localLengthFor c i
  let localLine := localLineFor c i
  let disallow := disallowFor rec
  let (u1, st1) := rand st
  let ballType := weightedChoice .seam u1 localType disallow
  let rec' := recPush rec ballType
  let (u2, st2) := rand st1
  let pickedLength := weightedChoice .short u2 localLength.toList []
  let (u3, st3) := rand st2
  let pickedLine := weightedChoice .outsideOff u3 localLine.toList []
  let pickedLine := if ballType = .bouncer then .atBody else pickedLine
  let (pickedLength, st4) :=
    if c.isSpin ∧ pickedLength = .short then
      let (u4, st') := rand st3
      (if u4 < Q.tenths 6 then Length.backOfLength else pickedLength, st')
    else (pickedLength, st3)
  let pickedLine :=
    if pickedLength = .yorker ∧
        ¬(pickedLine = .fourthFifthStump ∨ pickedLine = .offStump ∨
          pickedLine = .outsideOff) then
      Line.offStump
    else pickedLine
  let purpose := purposeFor ballType pickedLine pickedLength
  ({ over := over, ball := ball, type := ballType, length := pickedLength,
     line := pickedLine, pitchPurpose := purpose }, st4, rec')

def bvpLoop (c : Ctx) : Nat → Nat → Nat → List Ball → List Delivery
  | 0, _, _, _ => []
  | n + 1, i, st, rec =>
    let (d, st', rec') := bvpStep c i st rec
    d :: bvpLoop c n (i + 1) st' rec'

/-- The context of a `buildVariedPlan` call. -/
def mkCtx (b : Bowler) (phase : PhaseId) (pitch : PitchType) : Ctx :=
  let isSpin := hasSub (btypeCodes b.btype) (codes "spin")
  let bStrengths := b.strengths.map lowerCodes
  let bStrategy := lowerCodes b.strategies
  let typesBase :=
    if isSpin then (deriveSpinWeights b phase pitch bStrengths bStrategy).toList
    else (derivePaceWeights b phase pitch bStrengths bStrategy).toList
  { typesBase := typesBase, allowed := allowedTypesFor b, isSpin := isSpin,
    btype := b.btype, phase := phase,
    lenBase := lengthWeightsFor b phase pitch,
    linBase := lineWeightsFor b phase pitch }

/-- The seed of one `buildVariedPlan` call:
`hash32(`${bowler.id}|${phase}|${pitch}|${overs}|${salt}`)`. -/
def variedSeed (b : Bowler) (overs : Nat) (phase : PhaseId)
    (pitch : PitchType) (salt : List Nat) : Nat :=
  hash32
    (b.id ++ [124] ++ phaseCodes phase ++ [124] ++ pitchCodes pitch ++
     [124] ++ natCodes overs ++ [124] ++ salt)

/-- `buildVariedPlan` (src/types/cricket.ts). -/
def buildVariedPlan (b : Bowler) (overs : Nat) (phase : PhaseId)
    (pitch : PitchType) (salt : List Nat) : List Delivery :=
  let totalBalls := max 1 overs * 6
  bvpLoop (mkCtx b phase pitch) totalBalls 0
    (variedSeed b overs phase pitch salt) []

/-! ### `buildSpellPlan` -/

structure SpellItem where
  bowlerId : List Nat
  overs : Int
  deriving DecidableEq, Repr

def remSum (q : List (List Nat × Nat)) : Nat :=
  q.foldl (fun a x => a + x.2) 0

def rrPassIds (q : List (List Nat × Nat)) : List (List Nat) :=
  (q.filter (fun x => 0 < x.2)).map (·.1)

def rrDec (q : List (List Nat × Nat)) : List (List Nat × Nat) :=
  q.map (fun x => if 0 < x.2 then (x.1, x.2 - 1) else x)

/-- The round-robin while-loop, with fuel `remSum q` (each iteration
with a positive remainder strictly decreases the total remainder, so
this fuel is sufficient and the function computes exactly the source's
loop). -/
def rrGo : Nat → List (List Nat × Nat) → List (List Nat)
  | 0, _ => []
  | f + 1, q =>
    if q.all (fun x => x.2 = 0) then []
    else rrPassIds q ++ rrGo f (rrDec q)

/-- The over-order produced by `buildSpellPlan`'s round-robin scan. -/
def spellOrder (s : List SpellItem) : List (List Nat) :=
  let q := s.map (fun x => (x.bowlerId, (max 0 x.overs).toNat))
  rrGo (remSum q) q

/-- The `order.forEach` loop of `buildSpellPlan`: for the over at
0-based position `idx`, look the bowler up, compose one over
(`buildVariedPlan` with 1 over and salt `over:${idx+1}`), re-stamp its
deliveries with the global over number `idx+1`; a missing bowler id
skips the over. -/
def spellBlocks (roster : List Bowler) (ph : PhaseId) (pt : PitchType) :
    Nat → List (List Nat) → List Delivery
  | _, [] => []
  | idx, bid :: rest =>
    (match roster.find? (fun b => b.id = bid) with
     | none => []
     | some b =>
       (buildVariedPlan b 1 ph pt (codes "over:" ++ natCodes (idx + 1))).map
         (fun d => { d with over := idx + 1 })) ++
    spellBlocks roster ph pt (idx + 1) rest

/-- The `overToBowler` record built by the same loop. -/
def spellMap (roster : List Bowler) :
    Nat → List (List Nat) → List (Nat × List Nat)
  | _, [] => []
  | idx, bid :: rest =>
    (if (roster.find? (fun b => b.id = bid)).isSome then [(idx + 1, bid)]
     else []) ++ spellMap roster (idx + 1) rest

/-- `buildSpellPlan` (src/types/cricket.ts): round-robin order, then one
6-ball `buildVariedPlan` over per position with salt `over:N`, deliveries
re-stamped with the global over number; overs whose bowler id is not in
the roster are skipped. -/
def buildSpellPlan (roster : List Bowler) (s : List SpellItem)
    (ph : PhaseId) (pt : PitchType) :
    List Delivery × List (Nat × List Nat) :=
  (spellBlocks roster ph pt 0 (spellOrder s),
   spellMap roster 0 (spellOrder s))

end Page

/-! ## Specification-side definitions

Instrumentation used only to state and check properties; these are not
part of the source translation. -/

/-- The hash described by the specification, written as its own
recursion following the spec text: start from the 32-bit offset basis
2166136261 and, for each character, XOR its code then multiply by the
FNV prime 16777619, wrapping to 32 bits. Compared against the source's
`seedFromString` / `hash32`. -/
def fnvSpecGo : Nat → List Nat → Nat
  | h, [] => h
  | h, c :: cs => fnvSpecGo (((h ^^^ c) * 16777619) % 4294967296) cs

def fnvSpec (s : List Nat) : Nat := fnvSpecGo 2166136261 s

namespace Lib

/-- The (type, length, line) key of a generated delivery. -/
def tripleOf (d : Delivery) : Nat := tripleKey d.type d.length d.line

/-- Whether every draw of the fill loop finds a fresh triple within its
200-attempt budget (mirrors the fill recursion of
`generateDeliveries`); the bounded-retry fallback of `drawUnique` fires
exactly when this fails. -/
def fillNoFallbackB (c : Ctx) : Nat → Nat → List Nat → Bool
  | 0, _, _ => true
  | n + 1, st, used =>
    (drawLoop c none 200 st used).1.isSome &&
      (let r := drawUnique c none st used
       fillNoFallbackB c n r.2.1 r.2.2)

/-- Sample seam bowler (the starter roster's profile shape). -/
def sampleSeam : Bowler :=
  { id := codes "jasprit_bumrah", name := codes "Jasprit Bumrah", arm := .r,
    btype := codes "Seam", paceKph := some (codes "140-150"),
    strengths := [codes "Yorkers", codes "Hard 4th stump",
                  codes "Wobble seam"],
    strategies := [], isLegend := false }

/-- Sample leg-spin bowler (csvLoader's canonical `Leg-spin` type with
its derived strengths). -/
def sampleLegSpin : Bowler :=
  { id := codes "anil_kumble", name := codes "Anil Kumble", arm := .r,
    btype := codes "Leg-spin", paceKph := none,
    strengths := [codes "Quick legbreak", codes "Deceptive googly",
                  codes "Top-spinner for bounce"],
    strategies := [], isLegend := true }

/-- A leg-spin bowler whose strength tags heavily concentrate the type
draw on the googly, driving the bounded uniqueness retry into its
fallback path. -/
def stressLegSpin : Bowler :=
  { id := codes "adv", name := codes "Adv", arm := .r,
    btype := codes "Leg-spin", paceKph := none,
    strengths := List.replicate 200 (codes "googly"),
    strategies := [], isLegend := false }

end Lib

namespace Page

/-- Streak checker state machine: scans a type sequence while
maintaining the same two-element recent-types window as
`buildVariedPlan` (via `recPush`), and fails exactly when a type
completes a run of three. -/
def noTripleAux : List Ball → List Ball → Bool
  | _, [] => true
  | rec, t :: rest =>
    !(disallowFor rec).contains t && noTripleAux (recPush rec t) rest

/-- No run of three or more consecutive identical entries. -/
def noTriple (l : List Ball) : Bool := noTripleAux [] l

/-- A healthy type pool: at least two entries, no duplicate keys, and
every weight strictly positive. -/
def goodPool (w : List (Ball × Int)) : Prop :=
  2 ≤ w.length ∧ (w.map (·.1)).Nodup ∧ ∀ p ∈ w, 0 < p.2

/-- The clamped weight mass `weightedChoice` can distribute outside the
disallow list (the `total` of its fold, in recursive form). -/
def wsum {α : Type} [DecidableEq α] (disallow : List α) :
    List (α × Int) → Int
  | [] => 0
  | (a, v) :: rest =>
    (if disallow.contains a then 0 else max 0 v) + wsum disallow rest

/-- All pace weight-table entries strictly positive. -/
def PacePos (w : PaceW) : Prop :=
  0 < w.outswing ∧ 0 < w.inswing ∧ 0 < w.seam ∧ 0 < w.cutter ∧
  0 < w.slowerBall ∧ 0 < w.knuckle ∧ 0 < w.bouncer

/-- All spin weight-table entries strictly positive. -/
def SpinPos (w : SpinW) : Prop :=
  0 < w.legBreak ∧ 0 < w.googly ∧ 0 < w.topSpinner ∧ 0 < w.wrongUn ∧
  0 < w.offBreak ∧ 0 < w.armBall ∧ 0 < w.carrom

/-- Sample pace bowler for the page engine. -/
def samplePace : Bowler :=
  { id := codes "jasprit_bumrah", name := codes "Jasprit Bumrah",
    country := codes "India", iplTeam := some (codes "Mumbai Indians"),
    btype := .pace, arm := .r, paceKph := some (codes "140-150"),
    strengths := [codes "Yorkers", codes "Hard 4th stump",
                  codes "Wobble seam"],
    strategies := codes "New ball: hard length 4th stump.",
    isLegend := false }

/-- Sample leg-spin bowler for the page engine. -/
def sampleLegSpin : Bowler :=
  { id := codes "anil_kumble", name := codes "Anil Kumble",
    country := codes "India", iplTeam := none, btype := .legspin,
    arm := .r, paceKph := none,
    strengths := [codes "Quick legbreak", codes "Deceptive googly"],
    strategies := [], isLegend := true }

end Page

/-! ## Lemmas: lengths and stamping -/

namespace Lib

theorem fillSeq_length (c : Ctx) :
    ∀ (n : Nat) (st : Nat) (used : List Nat),
      (fillSeq c n st used).1.length = n := by
  intro n
  induction n with
  | zero => intro st used; rfl
  | succ k ih =>
    intro st used
    simp only [fillSeq]
    exact congrArg Nat.succ (ih _ _)

theorem generateDeliveries_length (b : Bowler) (balls : Nat)
    (phase : PhaseId) (pitch : PitchType) (seedHint : List Nat) :
    (generateDeliveries b balls phase pitch seedHint).length = balls := by
  unfold generateDeliveries
  split
  · simp [List.length_set, fillSeq_length]
  · simp [fillSeq_length]

theorem buildOverPlan_length (b : Bowler) (overs : Nat) (phase : PhaseId)
    (pitch : PitchType) :
    (buildOverPlan b overs phase pitch).length = 6 * overs := by
  unfold buildOverPlan
  simp [List.enum_length, generateDeliveries_length, Nat.mul_comm]

theorem buildOverPlan_over (b : Bowler) (overs : Nat) (phase : PhaseId)
    (pitch : PitchType) :
    (buildOverPlan b overs phase pitch).map (·.over) =
      (List.range (overs * 6)).map (fun i => i / 6 + 1) := by
  unfold buildOverPlan
  have h := generateDeliveries_length b (overs * 6) phase pitch
    (codes "ov:" ++ natCodes overs)
  set seq := generateDeliveries b (overs * 6) phase pitch
    (codes "ov:" ++ natCodes overs) with hseq
  rw [List.map_map]
  have : ((fun d : Delivery => d.over) ∘
      fun p : Nat × Delivery => { p.2 with over := p.1 / 6 + 1 }) =
      (fun p : Nat × Delivery => p.1 / 6 + 1) := rfl
  rw [this]
  have : (fun p : Nat × Delivery => p.1 / 6 + 1) =
      ((fun i : Nat => i / 6 + 1) ∘ Prod.fst) := rfl
  rw [this, ← List.map_map, List.enum_map_fst, h]

end Lib

namespace Page

theorem bvpLoop_length (c : Ctx) :
    ∀ (n i st : Nat) (rec : List Ball),
      (bvpLoop c n i st rec).length = n := by
  intro n
  induction n with
  | zero => intro i st rec; rfl
  | succ k ih =>
    intro i st rec
    simp only [bvpLoop]
    exact congrArg Nat.succ (ih _ _ _)

theorem bvpStep_over_ball (c : Ctx) (i st : Nat) (rec : List Ball) :
    ((bvpStep c i st rec).1.over = i / 6 + 1) ∧
      ((bvpStep c i st rec).1.ball = i % 6 + 1) := by
  constructor <;> rfl

theorem bvpLoop_over_ball (c : Ctx) :
    ∀ (n i st : Nat) (rec : List Ball),
      (bvpLoop c n i st rec).map (fun d => (d.over, d.ball)) =
        (List.range' i n).map (fun j => (j / 6 + 1, j % 6 + 1)) := by
  intro n
  induction n with
  | zero => intro i st rec; rfl
  | succ k ih =>
    intro i st rec
    simp only [bvpLoop, List.range'_succ, List.map_cons]
    refine congrArg₂ _ ?_ (ih _ _ _)
    exact congrArg₂ _ (bvpStep_over_ball c i st rec).1
      (bvpStep_over_ball c i st rec).2

theorem buildVariedPlan_length (b : Bowler) (overs : Nat) (phase : PhaseId)
    (pitch : PitchType) (salt : List Nat) :
    (buildVariedPlan b overs phase pitch salt).length = max 1 overs * 6 := by
  unfold buildVariedPlan
  exact bvpLoop_length _ _ _ _ _

theorem buildVariedPlan_over_ball (b : Bowler) (overs : Nat)
    (phase : PhaseId) (pitch : PitchType) (salt : List Nat) :
    (buildVariedPlan b overs phase pitch salt).map
        (fun d => (d.over, d.ball)) =
      (List.range (max 1 overs * 6)).map (fun j => (j / 6 + 1, j % 6 + 1)) := by
  unfold buildVariedPlan
  rw [bvpLoop_over_ball, List.range_eq_range']

end Page

/-! ## Lemmas: congruence in the bowler fields actually read -/

namespace Lib

theorem buildWeightedPools_congr (b1 b2 : Bowler) (ph : PhaseId)
    (pi : PitchType) (ht : b1.btype = b2.btype)
    (hs : b1.strengths = b2.strengths) :
    buildWeightedPools b1 ph pi = buildWeightedPools b2 ph pi := by
  unfold buildWeightedPools baseDeliveryWeights baseLengthWeights
    baseLineWeights
  rw [ht, hs]

theorem generateSeed_congr (b1 b2 : Bowler) (ph : PhaseId) (pi : PitchType)
    (salt : List Nat) (hid : b1.id = b2.id) :
    generateSeed b1 ph pi salt = generateSeed b2 ph pi salt := by
  unfold generateSeed
  rw [hid]

theorem gdCtx_congr (b1 b2 : Bowler) (ph : PhaseId) (pi : PitchType)
    (ht : b1.btype = b2.btype) (hs : b1.strengths = b2.strengths) :
    gdCtx b1 ph pi = gdCtx b2 ph pi := by
  unfold gdCtx
  rw [buildWeightedPools_congr b1 b2 ph pi ht hs]

theorem trapFor_congr (b1 b2 : Bowler) (ph : PhaseId)
    (ht : b1.btype = b2.btype) :
    trapFor b1 ph = trapFor b2 ph := by
  unfold trapFor
  rw [ht]

theorem generateDeliveries_congr (b1 b2 : Bowler) (balls : Nat)
    (ph : PhaseId) (pi : PitchType) (salt : List Nat)
    (hid : b1.id = b2.id) (ht : b1.btype = b2.btype)
    (hs : b1.strengths = b2.strengths) :
    generateDeliveries b1 balls ph pi salt =
      generateDeliveries b2 balls ph pi salt := by
  unfold generateDeliveries
  rw [generateSeed_congr b1 b2 ph pi salt hid, gdCtx_congr b1 b2 ph pi ht hs,
    trapFor_congr b1 b2 ph ht]

theorem buildOverPlan_congr (b1 b2 : Bowler) (overs : Nat) (ph : PhaseId)
    (pi : PitchType) (hid : b1.id = b2.id) (ht : b1.btype = b2.btype)
    (hs : b1.strengths = b2.strengths) :
    buildOverPlan b1 overs ph pi = buildOverPlan b2 overs ph pi := by
  unfold buildOverPlan
  simp only []
  rw [generateDeliveries_congr b1 b2 (overs * 6) ph pi
    (codes "ov:" ++ natCodes overs) hid ht hs]

end Lib

/-! ## Lemmas: the hash -/

theorem foldl_fnvStep_eq_fnvSpecGo :
    ∀ (s : List Nat) (h : Nat), s.foldl fnvStep h = fnvSpecGo h s := by
  intro s
  induction s with
  | nil => intro h; rfl
  | cons c cs ih =>
    intro h
    simp only [List.foldl, fnvSpecGo]
    exact ih _

theorem seedFromString_eq_fnvSpec (s : List Nat) :
    seedFromString s = fnvSpec s :=
  foldl_fnvStep_eq_fnvSpecGo s 2166136261

theorem hash32_eq_fnvSpec (s : List Nat) : hash32 s = fnvSpec s :=
  foldl_fnvStep_eq_fnvSpecGo s 2166136261

/-! ## Claim theorems -/

/-- C10: for every bowler, phase, pitch, salt string and requested ball
count `n ≥ 0`, `generateDeliveries` returns exactly `n` deliveries (the
trap overwrite replaces in place), and `buildOverPlan` returns exactly
`6 * overs` deliveries. -/
theorem c10_output_length (b : Lib.Bowler) (n overs : Nat)
    (ph : Lib.PhaseId) (pi : Lib.PitchType) (salt : List Nat) :
    (Lib.generateDeliveries b n ph pi salt).length = n ∧
      (Lib.buildOverPlan b overs ph pi).length = 6 * overs :=
  ⟨Lib.generateDeliveries_length b n ph pi salt,
   Lib.buildOverPlan_length b overs ph pi⟩

/-- C9: in every `buildOverPlan` sequence the delivery at 0-based index
`i` carries over number `⌊i/6⌋ + 1`, and in every `buildVariedPlan`
sequence the delivery at index `i` carries over number `⌊i/6⌋ + 1` and
ball number `(i % 6) + 1` (so ball numbers cycle 1..6). -/
theorem c9_numbering (b : Lib.Bowler) (overs : Nat) (ph : Lib.PhaseId)
    (pi : Lib.PitchType) (pb : Page.Bowler) (overs' : Nat)
    (ph' : Page.PhaseId) (pi' : Page.PitchType) (salt : List Nat) :
    (Lib.buildOverPlan b overs ph pi).map (·.over) =
      (List.range (overs * 6)).map (fun i => i / 6 + 1) ∧
    (Page.buildVariedPlan pb overs' ph' pi' salt).map
        (fun d => (d.over, d.ball)) =
      (List.range (max 1 overs' * 6)).map
        (fun i => (i / 6 + 1, i % 6 + 1)) :=
  ⟨Lib.buildOverPlan_over b overs ph pi,
   Page.buildVariedPlan_over_ball pb overs' ph' pi' salt⟩

/-- C1: the over composer is deterministic — its output is a function of
the bowler's `id`, `type` and `strengths` fields (and the call
parameters) only, so any two invocations with those fixed return
element-wise identical sequences, both for `generateDeliveries` and for
`buildOverPlan`. -/
theorem c1_determinism (b1 b2 : Lib.Bowler) (balls overs : Nat)
    (ph : Lib.PhaseId) (pi : Lib.PitchType) (salt : List Nat)
    (hid : b1.id = b2.id) (ht : b1.btype = b2.btype)
    (hs : b1.strengths = b2.strengths) :
    Lib.generateDeliveries b1 balls ph pi salt =
      Lib.generateDeliveries b2 balls ph pi salt ∧
    Lib.buildOverPlan b1 overs ph pi = Lib.buildOverPlan b2 overs ph pi :=
  ⟨Lib.generateDeliveries_congr b1 b2 balls ph pi salt hid ht hs,
   Lib.buildOverPlan_congr b1 b2 overs ph pi hid ht hs⟩

/-- Witness for C1: two bowler records equal in `id`, `type` and
`strengths` but differing in name, arm, pace and legend flag produce
identical outputs. -/
theorem c1_determinism_witness :
    Lib.generateDeliveries Lib.sampleSeam 12 .middle .green (codes "w") =
      Lib.generateDeliveries
        { Lib.sampleSeam with
          name := codes "Other Name"
          arm := .l
          paceKph := none
          isLegend := true } 12 .middle .green (codes "w") ∧
    Lib.buildOverPlan Lib.sampleSeam 2 .middle .green =
      Lib.buildOverPlan
        { Lib.sampleSeam with
          name := codes "Other Name"
          arm := .l
          paceKph := none
          isLegend := true } 2 .middle .green :=
  c1_determinism _ _ 12 2 .middle .green (codes "w") rfl rfl rfl

/-- C7 counterexample: the claim says the seed is the FNV-1a-style hash
of the concatenation of bowler id, phase, pitch, *over count* and salt,
but the library engine's seed string omits the over count: for a
concrete call, the actual seed differs from the claimed hash whether the
over count is read as overs (2) or balls (12). -/
theorem c7_counterexample :
    Lib.generateSeed Lib.sampleSeam .powerplay .normal (codes "s") ≠
      hash32 (codes "jasprit_bumrah" ++ [124] ++ codes "powerplay" ++
        [124] ++ codes "Normal" ++ [124] ++ natCodes 2 ++ [124] ++
        codes "s") ∧
    Lib.generateSeed Lib.sampleSeam .powerplay .normal (codes "s") ≠
      hash32 (codes "jasprit_bumrah" ++ [124] ++ codes "powerplay" ++
        [124] ++ codes "Normal" ++ [124] ++ natCodes 12 ++ [124] ++
        codes "s") := by
  constructor <;> decide

/-- C7 (amended): both engines' seeds are the FNV-1a-style 32-bit hash
(offset basis 2166136261, XOR each character code then multiply by
16777619, wrapped to 32 bits) of a `|`-separated concatenation — for the
page engine of bowler id, phase, pitch, over count and salt, exactly as
claimed; for the library engine of bowler id, phase, pitch and salt,
without the over count (which enters only through `buildOverPlan`'s
`ov:N` salt); equal concatenations always yield equal seeds. -/
theorem c7_amended :
    (∀ s, seedFromString s = fnvSpec s) ∧
    (∀ s, hash32 s = fnvSpec s) ∧
    (∀ (b : Lib.Bowler) (ph : Lib.PhaseId) (pi : Lib.PitchType)
      (salt : List Nat),
      Lib.generateSeed b ph pi salt =
        fnvSpec (b.id ++ [124] ++ Lib.phaseCodes ph ++ [124] ++
          Lib.pitchCodes pi ++ [124] ++ salt)) ∧
    (∀ (b : Page.Bowler) (overs : Nat) (ph : Page.PhaseId)
      (pi : Page.PitchType) (salt : List Nat),
      Page.variedSeed b overs ph pi salt =
        fnvSpec (b.id ++ [124] ++ Page.phaseCodes ph ++ [124] ++
          Page.pitchCodes pi ++ [124] ++ natCodes overs ++ [124] ++ salt)) ∧
    (∀ s1 s2 : List Nat, s1 = s2 → seedFromString s1 = seedFromString s2) :=
  ⟨seedFromString_eq_fnvSpec, hash32_eq_fnvSpec,
   fun _ _ _ _ => seedFromString_eq_fnvSpec _,
   fun _ _ _ _ _ => hash32_eq_fnvSpec _,
   fun _ _ h => congrArg seedFromString h⟩

/-- Witness for C7 (amended): the last conjunct instantiated at a
concrete concatenation. -/
theorem c7_amended_witness :
    seedFromString (codes "a|powerplay|Normal|1|x") =
      seedFromString (codes "a|powerplay|Normal|1|x") :=
  c7_amended.2.2.2.2 (codes "a|powerplay|Normal|1|x")
    (codes "a|powerplay|Normal|1|x") rfl

/-! ## Lemmas: spell scheduling -/

namespace Page

theorem spellBlocks_over_ge (roster : List Bowler) (ph : PhaseId)
    (pt : PitchType) :
    ∀ (order : List (List Nat)) (k : Nat) (d : Delivery),
      d ∈ spellBlocks roster ph pt k order → k + 1 ≤ d.over := by
  intro order
  induction order with
  | nil => intro k d h; cases h
  | cons hd tl ih =>
    intro k d h
    simp only [spellBlocks, List.mem_append] at h
    rcases h with h | h
    · rcases hfind : roster.find? (fun b => b.id = hd) with _ | b
      · rw [hfind] at h; cases h
      · rw [hfind] at h
        rcases List.mem_map.mp h with ⟨d', _, rfl⟩
        exact Nat.le_refl _
    · exact Nat.le_of_succ_le (ih (k + 1) d h)

theorem spellBlocks_filter (roster : List Bowler) (ph : PhaseId)
    (pt : PitchType) :
    ∀ (order : List (List Nat)) (k idx : Nat) (bid : List Nat) (b : Bowler),
      order[idx]? = some bid →
      roster.find? (fun x => x.id = bid) = some b →
      (spellBlocks roster ph pt k order).filter
          (fun d => d.over = k + idx + 1) =
        (buildVariedPlan b 1 ph pt
            (codes "over:" ++ natCodes (k + idx + 1))).map
          (fun d => { d with over := k + idx + 1 }) := by
  intro order
  induction order with
  | nil => intro k idx bid b h; cases h
  | cons hd tl ih =>
    intro k idx bid b hget hfind
    cases idx with
    | zero =>
      rw [List.getElem?_cons_zero] at hget
      cases hget
      simp only [spellBlocks, hfind, List.filter_append]
      have h1 : ((buildVariedPlan b 1 ph pt
          (codes "over:" ++ natCodes (k + 1))).map
            (fun d => { d with over := k + 1 })).filter
          (fun d => d.over = k + 0 + 1) =
          (buildVariedPlan b 1 ph pt
            (codes "over:" ++ natCodes (k + 1))).map
            (fun d => { d with over := k + 1 }) := by
        rw [List.filter_eq_self]
        intro a ha
        rcases List.mem_map.mp ha with ⟨d', _, rfl⟩
        simp
      have h2 : (spellBlocks roster ph pt (k + 1) tl).filter
          (fun d => d.over = k + 0 + 1) = [] := by
        rw [List.filter_eq_nil_iff]
        intro a ha
        have := spellBlocks_over_ge roster ph pt tl (k + 1) a ha
        simp only [decide_eq_true_eq]
        omega
      rw [h1, h2, List.append_nil]
    | succ j =>
      rw [List.getElem?_cons_succ] at hget
      simp only [spellBlocks, List.filter_append]
      have h1 : ∀ bl : List Delivery,
          (match roster.find? (fun x => x.id = hd) with
           | none => ([] : List Delivery)
           | some b' =>
             (buildVariedPlan b' 1 ph pt
               (codes "over:" ++ natCodes (k + 1))).map
               (fun d => { d with over := k + 1 })) = bl →
          bl.filter (fun d => d.over = k + (j + 1) + 1) = [] := by
        intro bl hbl
        rw [List.filter_eq_nil_iff]
        intro a ha
        rcases hfind' : roster.find? (fun x => x.id = hd) with _ | b'
        · rw [hfind'] at hbl; subst hbl; cases ha
        · rw [hfind'] at hbl
          subst hbl
          rcases List.mem_map.mp ha with ⟨d', _, rfl⟩
          simp only [decide_eq_true_eq]
          omega
      rw [h1 _ rfl]
      have := ih (k + 1) j bid b hget hfind
      have harith : k + 1 + j + 1 = k + (j + 1) + 1 := by omega
      rw [harith] at this
      rw [List.nil_append, this]

theorem spellMap_mem (roster : List Bowler) :
    ∀ (order : List (List Nat)) (k idx : Nat) (bid : List Nat),
      order[idx]? = some bid →
      (roster.find? (fun x => x.id = bid)).isSome →
      (k + idx + 1, bid) ∈ spellMap roster k order := by
  intro order
  induction order with
  | nil => intro k idx bid h; cases h
  | cons hd tl ih =>
    intro k idx bid hget hfind
    cases idx with
    | zero =>
      rw [List.getElem?_cons_zero] at hget
      cases hget
      simp only [spellMap, hfind, if_true, List.mem_append]
      left
      simp
    | succ j =>
      rw [List.getElem?_cons_succ] at hget
      simp only [spellMap, List.mem_append]
      right
      have := ih (k + 1) j bid hget hfind
      have harith : k + 1 + j + 1 = k + (j + 1) + 1 := by omega
      rwa [harith] at this

end Page

/-- C6: the spell scheduler consumes spell items round-robin —
`schedule [(A,2),(B,2)]` yields over order exactly `[A,B,A,B]` and
`schedule [(A,3),(B,1)]` exactly `[A,B,A,A]`; each scheduled over whose
bowler is in the roster invokes the over composer for exactly one over
(6 balls) with salt `over:N` derived from the 1-based global over
number `N`, its deliveries are re-stamped with `N`, and the
over-to-bowler map records `(N, bowler id)`. -/
theorem c6_round_robin (A B : List Nat) (roster : List Page.Bowler)
    (s : List Page.SpellItem) (ph : Page.PhaseId) (pt : Page.PitchType)
    (idx : Nat) (bid : List Nat) (b : Page.Bowler)
    (hget : (Page.spellOrder s)[idx]? = some bid)
    (hfind : roster.find? (fun x => x.id = bid) = some b) :
    Page.spellOrder [⟨A, 2⟩, ⟨B, 2⟩] = [A, B, A, B] ∧
    Page.spellOrder [⟨A, 3⟩, ⟨B, 1⟩] = [A, B, A, A] ∧
    ((Page.buildSpellPlan roster s ph pt).1.filter
        (fun d => d.over = idx + 1) =
      (Page.buildVariedPlan b 1 ph pt
          (codes "over:" ++ natCodes (idx + 1))).map
        (fun d => { d with over := idx + 1 })) ∧
    ((Page.buildSpellPlan roster s ph pt).1.filter
        (fun d => d.over = idx + 1)).length = 6 ∧
    (idx + 1, bid) ∈ (Page.buildSpellPlan roster s ph pt).2 := by
  refine ⟨rfl, rfl, ?_, ?_, ?_⟩
  · have := Page.spellBlocks_filter roster ph pt (Page.spellOrder s) 0 idx
      bid b hget hfind
    simpa using this
  · have := Page.spellBlocks_filter roster ph pt (Page.spellOrder s) 0 idx
      bid b hget hfind
    simp only [Nat.zero_add] at this
    rw [show (Page.buildSpellPlan roster s ph pt).1 =
        Page.spellBlocks roster ph pt 0 (Page.spellOrder s) from rfl, this,
      List.length_map, Page.buildVariedPlan_length]
    rfl
  · have := Page.spellMap_mem roster (Page.spellOrder s) 0 idx bid hget
      (by rw [hfind]; rfl)
    simpa using this

/-- Witness for C6: a one-item spell over a one-bowler roster, at over
position 0. -/
theorem c6_round_robin_witness :
    Page.spellOrder [⟨codes "x", 2⟩, ⟨codes "y", 2⟩] =
      [codes "x", codes "y", codes "x", codes "y"] ∧
    Page.spellOrder [⟨codes "x", 3⟩, ⟨codes "y", 1⟩] =
      [codes "x", codes "y", codes "x", codes "x"] ∧
    ((Page.buildSpellPlan [Page.samplePace]
        [⟨codes "jasprit_bumrah", 1⟩] .middle .normal).1.filter
        (fun d => d.over = 0 + 1) =
      (Page.buildVariedPlan Page.samplePace 1 .middle .normal
          (codes "over:" ++ natCodes (0 + 1))).map
        (fun d => { d with over := 0 + 1 })) ∧
    ((Page.buildSpellPlan [Page.samplePace]
        [⟨codes "jasprit_bumrah", 1⟩] .middle .normal).1.filter
        (fun d => d.over = 0 + 1)).length = 6 ∧
    (0 + 1, codes "jasprit_bumrah") ∈
      (Page.buildSpellPlan [Page.samplePace]
        [⟨codes "jasprit_bumrah", 1⟩] .middle .normal).2 :=
  c6_round_robin (codes "x") (codes "y") [Page.samplePace]
    [⟨codes "jasprit_bumrah", 1⟩] .middle .normal 0
    (codes "jasprit_bumrah") Page.samplePace (by decide) (by decide)


/-! ## Lemmas: archetype legality (library engine) -/

namespace Lib

theorem pwGo_mem {α : Type} (dflt : α) :
    ∀ (items : List (α × Q)) (r : Q), items ≠ [] →
      pwGo dflt r items ∈ items.map (·.1) := by
  intro items
  induction items with
  | nil => intro r h; exact absurd rfl h
  | cons p rest ih =>
    intro r _
    rcases p with ⟨a, w⟩
    simp only [pwGo, List.map_cons]
    split
    · exact List.mem_cons_self _ _
    · cases rest with
      | nil => simp
      | cons q rest' =>
        exact List.mem_cons_of_mem _ (ih _ (by simp))

theorem pickWeighted_mem {α : Type} (dflt : α) (u : Q)
    (items : List (α × Q)) (h : items ≠ []) :
    pickWeighted dflt u items ∈ items.map (·.1) :=
  pwGo_mem dflt items _ h

end Lib

theorem keys_ite {α β : Type} (S : List α) (c : Prop) [Decidable c]
    (w w' : List (α × β)) (h : ∀ x ∈ w.map (·.1), x ∈ S)
    (h' : ∀ x ∈ w'.map (·.1), x ∈ S) :
    ∀ x ∈ (if c then w' else w).map (·.1), x ∈ S := by
  split
  · exact h'
  · exact h

theorem ne_nil_ite {α : Type} (c : Prop) [Decidable c] (w w' : List α)
    (h : w ≠ []) (h' : w' ≠ []) : (if c then w' else w) ≠ [] := by
  split
  · exact h'
  · exact h

theorem wset_keys_subset {α β : Type} [DecidableEq α] (S : List α) :
    ∀ (w : List (α × β)) (k : α) (v : β),
      (∀ x ∈ w.map (·.1), x ∈ S) → k ∈ S →
      ∀ x ∈ (wset w k v).map (·.1), x ∈ S := by
  intro w
  induction w with
  | nil =>
    intro k v _ hk x hx
    simp only [wset, List.map_cons, List.map_nil, List.mem_singleton] at hx
    subst hx; exact hk
  | cons p rest ih =>
    intro k v hw hk x hx
    rcases p with ⟨a, b⟩
    simp only [wset] at hx
    by_cases hak : a = k
    · rw [if_pos hak] at hx
      simp only [List.map_cons, List.mem_cons] at hx
      rcases hx with rfl | hx
      · exact hw _ (by simp)
      · exact hw _ (by simp [hx])
    · rw [if_neg hak] at hx
      simp only [List.map_cons, List.mem_cons] at hx
      rcases hx with rfl | hx
      · exact hw _ (by simp)
      · exact ih k v (fun y hy => hw y (by simp [hy])) hk x hx

theorem wadd_keys_subset {α β : Type} [DecidableEq α] [Add β] (S : List α)
    (w : List (α × β)) (k : α) (dflt δ : β)
    (hw : ∀ x ∈ w.map (·.1), x ∈ S) (hk : k ∈ S) :
    ∀ x ∈ (wadd w k dflt δ).map (·.1), x ∈ S :=
  wset_keys_subset S w k _ hw hk

theorem wset_ne_nil {α β : Type} [DecidableEq α] (w : List (α × β)) (k : α)
    (v : β) : wset w k v ≠ [] := by
  cases w with
  | nil => simp [wset]
  | cons p rest =>
    rcases p with ⟨a, b⟩
    simp only [wset]
    split <;> simp

theorem wadd_ne_nil {α β : Type} [DecidableEq α] [Add β]
    (w : List (α × β)) (k : α) (dflt δ : β) : wadd w k dflt δ ≠ [] :=
  wset_ne_nil w k _

namespace Lib

theorem spin_fold_keys :
    ∀ (sl : List (List Nat)) (acc : List (DeliveryType × Q)),
      (∀ x ∈ acc.map (·.1), x ∈ DELIVERY_TYPES_SPIN) →
      ∀ x ∈ (sl.foldl
        (fun w s =>
          let k := lowerCodes s
          let w := if hasSub k (codes "arm") then
            wadd w .armBall 1 (Q.tenths 15) else w
          let w := if hasSub k (codes "googly") then
            wadd w .googly 1 (Q.tenths 15) else w
          let w := if hasSub k (codes "top") then
            wadd w .topSpinner 1 1 else w
          w) acc).map (·.1), x ∈ DELIVERY_TYPES_SPIN := by
  intro sl
  induction sl with
  | nil => intro acc hk; exact hk
  | cons sx sl ih =>
    intro acc hk
    rw [List.foldl_cons]
    refine ih _ ?_
    dsimp only
    repeat' first
      | exact hk
      | (refine wadd_keys_subset _ _ _ _ _ ?_ (by decide))
      | (refine keys_ite _ _ _ _ ?_ ?_)

theorem spin_fold_ne :
    ∀ (sl : List (List Nat)) (acc : List (DeliveryType × Q)), acc ≠ [] →
      (sl.foldl
        (fun w s =>
          let k := lowerCodes s
          let w := if hasSub k (codes "arm") then
            wadd w .armBall 1 (Q.tenths 15) else w
          let w := if hasSub k (codes "googly") then
            wadd w .googly 1 (Q.tenths 15) else w
          let w := if hasSub k (codes "top") then
            wadd w .topSpinner 1 1 else w
          w) acc) ≠ [] := by
  intro sl
  induction sl with
  | nil => intro acc h; exact h
  | cons sx sl ih =>
    intro acc hne
    rw [List.foldl_cons]
    refine ih _ ?_
    dsimp only
    repeat' first
      | exact hne
      | exact wadd_ne_nil _ _ _ _
      | (refine ne_nil_ite _ _ _ ?_ ?_)

theorem pace_fold_keys :
    ∀ (sl : List (List Nat)) (acc : List (DeliveryType × Q)),
      (∀ x ∈ acc.map (·.1), x ∈ DELIVERY_TYPES_PACE) →
      ∀ x ∈ (sl.foldl
        (fun w s =>
          let k := lowerCodes s
          let w := if hasSub k (codes "yorker") then
            wadd w .standard 0 (Q.tenths 2) else w
          let w := if hasSub k (codes "outswing") then
            wadd w .outswing 1 (Q.tenths 15) else w
          let w := if hasSub k (codes "inswing") then
            wadd w .inswing 1 (Q.tenths 15) else w
          let w := if hasSub k (codes "wobble") || hasSub k (codes "seam") then
            wadd w .crossSeam 1 (Q.tenths 12) else w
          let w := if hasSub k (codes "cutter") then
            wadd (wadd w .offCutter 1 (Q.tenths 12)) .legCutter 1 (Q.tenths 12)
            else w
          let w := if hasSub k (codes "bouncer") then
            wadd w .bouncer 1 (Q.tenths 12) else w
          let w := if hasSub k (codes "slower") then
            wadd w .slower 1 (Q.tenths 12) else w
          w) acc).map (·.1), x ∈ DELIVERY_TYPES_PACE := by
  intro sl
  induction sl with
  | nil => intro acc hk; exact hk
  | cons sx sl ih =>
    intro acc hk
    rw [List.foldl_cons]
    refine ih _ ?_
    dsimp only
    repeat' first
      | exact hk
      | (refine wadd_keys_subset _ _ _ _ _ ?_ (by decide))
      | (refine keys_ite _ _ _ _ ?_ ?_)

theorem pace_fold_ne :
    ∀ (sl : List (List Nat)) (acc : List (DeliveryType × Q)), acc ≠ [] →
      (sl.foldl
        (fun w s =>
          let k := lowerCodes s
          let w := if hasSub k (codes "yorker") then
            wadd w .standard 0 (Q.tenths 2) else w
          let w := if hasSub k (codes "outswing") then
            wadd w .outswing 1 (Q.tenths 15) else w
          let w := if hasSub k (codes "inswing") then
            wadd w .inswing 1 (Q.tenths 15) else w
          let w := if hasSub k (codes "wobble") || hasSub k (codes "seam") then
            wadd w .crossSeam 1 (Q.tenths 12) else w
          let w := if hasSub k (codes "cutter") then
            wadd (wadd w .offCutter 1 (Q.tenths 12)) .legCutter 1 (Q.tenths 12)
            else w
          let w := if hasSub k (codes "bouncer") then
            wadd w .bouncer 1 (Q.tenths 12) else w
          let w := if hasSub k (codes "slower") then
            wadd w .slower 1 (Q.tenths 12) else w
          w) acc) ≠ [] := by
  intro sl
  induction sl with
  | nil => intro acc h; exact h
  | cons sx sl ih =>
    intro acc hne
    rw [List.foldl_cons]
    refine ih _ ?_
    dsimp only
    repeat' first
      | exact hne
      | exact wadd_ne_nil _ _ _ _
      | (refine ne_nil_ite _ _ _ ?_ ?_)

theorem baseDeliveryWeights_spin_keys (b : Bowler)
    (hspin : hasSub b.btype (codes "spin") = true) :
    ∀ x ∈ (baseDeliveryWeights b).map (·.1), x ∈ DELIVERY_TYPES_SPIN := by
  unfold baseDeliveryWeights
  rw [hspin]
  rw [if_pos rfl]
  exact spin_fold_keys b.strengths _ (by decide)

theorem baseDeliveryWeights_spin_ne (b : Bowler)
    (hspin : hasSub b.btype (codes "spin") = true) :
    baseDeliveryWeights b ≠ [] := by
  unfold baseDeliveryWeights
  rw [hspin]
  rw [if_pos rfl]
  exact spin_fold_ne b.strengths _ (by decide)

theorem baseDeliveryWeights_pace_keys (b : Bowler)
    (hspin : hasSub b.btype (codes "spin") = false) :
    ∀ x ∈ (baseDeliveryWeights b).map (·.1), x ∈ DELIVERY_TYPES_PACE := by
  unfold baseDeliveryWeights
  rw [hspin]
  rw [if_neg (by simp)]
  exact pace_fold_keys b.strengths _ (by decide)

theorem baseDeliveryWeights_pace_ne (b : Bowler)
    (hspin : hasSub b.btype (codes "spin") = false) :
    baseDeliveryWeights b ≠ [] := by
  unfold baseDeliveryWeights
  rw [hspin]
  rw [if_neg (by simp)]
  exact pace_fold_ne b.strengths _ (by decide)

end Lib

namespace Lib

theorem buildWeightedPools_del_keys_pace (b : Bowler)
    (hspin : hasSub b.btype (codes "spin") = false) (ph : PhaseId)
    (pi : PitchType) :
    ∀ x ∈ ((buildWeightedPools b ph pi).1).map (·.1),
      x ∈ DELIVERY_TYPES_PACE := by
  have hb := baseDeliveryWeights_pace_keys b hspin
  unfold buildWeightedPools
  cases pi <;> dsimp only
  · exact hb
  · exact wadd_keys_subset _ _ .crossSeam 1 (Q.tenths 6) hb (by decide)
  · exact wadd_keys_subset _ _ .legCutter 1 (Q.tenths 7)
      (wadd_keys_subset _ _ .offCutter 1 (Q.tenths 7) hb (by decide))
      (by decide)
  · exact wadd_keys_subset _ _ .slower 1 (Q.tenths 4) hb (by decide)

theorem buildWeightedPools_del_keys_spin_normal (b : Bowler)
    (hspin : hasSub b.btype (codes "spin") = true) (ph : PhaseId) :
    ∀ x ∈ ((buildWeightedPools b ph .normal).1).map (·.1),
      x ∈ DELIVERY_TYPES_SPIN := by
  have hb := baseDeliveryWeights_spin_keys b hspin
  unfold buildWeightedPools
  exact hb

theorem baseDeliveryWeights_ne (b : Bowler) : baseDeliveryWeights b ≠ [] := by
  cases h : hasSub b.btype (codes "spin")
  · exact baseDeliveryWeights_pace_ne b h
  · exact baseDeliveryWeights_spin_ne b h

theorem buildWeightedPools_del_ne (b : Bowler) (ph : PhaseId)
    (pi : PitchType) : (buildWeightedPools b ph pi).1 ≠ [] := by
  have hb := baseDeliveryWeights_ne b
  unfold buildWeightedPools
  cases pi <;> dsimp only
  · exact hb
  · exact wadd_ne_nil _ _ _ _
  · exact wadd_ne_nil _ _ _ _
  · exact wadd_ne_nil _ _ _ _

theorem gdCtx_delPool_ne (b : Bowler) (ph : PhaseId) (pi : PitchType) :
    (gdCtx b ph pi).delPool ≠ [] :=
  buildWeightedPools_del_ne b ph pi

theorem drawOnce_none_type (c : Ctx) (st : Nat) (hne : c.delPool ≠ []) :
    (drawOnce c none st).1 ∈ c.delPool.map (·.1) := by
  show pickWeighted .standard (rand st).1 c.delPool ∈ c.delPool.map (·.1)
  exact pickWeighted_mem _ _ _ hne

theorem drawLoop_none_type (c : Ctx) (hne : c.delPool ≠ []) :
    ∀ (fuel st : Nat) (used : List Nat) (d : Delivery) (used' : List Nat),
      (drawLoop c none fuel st used).1 = some (d, used') →
      d.type ∈ c.delPool.map (·.1) := by
  intro fuel
  induction fuel with
  | zero => intro st used d used' h; cases h
  | succ k ih =>
    intro st used d used' h
    simp only [drawLoop] at h
    rcases hdo : drawOnce c none st with ⟨t, L, n, st'⟩
    rw [hdo] at h
    dsimp only at h
    split at h
    · exact ih _ _ _ _ h
    · dsimp only at h
      injection h with h2
      cases h2
      have := drawOnce_none_type c st hne
      rw [hdo] at this
      exact this

theorem drawUnique_none_type (c : Ctx) (st : Nat) (used : List Nat)
    (hne : c.delPool ≠ []) :
    (drawUnique c none st used).1.type ∈ c.delPool.map (·.1) := by
  unfold drawUnique
  rcases hdl : drawLoop c none 200 st used with ⟨o, st'⟩
  cases o with
  | some r =>
    rcases r with ⟨d, u'⟩
    dsimp only
    exact drawLoop_none_type c hne 200 st used d u' (by rw [hdl])
  | none =>
    dsimp only
    rcases hpool : c.delPool with _ | ⟨p, rest⟩
    · exact absurd hpool hne
    · simp [hpool]

theorem drawLoop_forced_type (c : Ctx) (f : Force) (t : DeliveryType)
    (hf : f.ftype = some t) :
    ∀ (fuel st : Nat) (used : List Nat) (d : Delivery) (used' : List Nat),
      (drawLoop c (some f) fuel st used).1 = some (d, used') →
      d.type = t := by
  intro fuel
  induction fuel with
  | zero => intro st used d used' h; cases h
  | succ k ih =>
    intro st used d used' h
    simp only [drawLoop] at h
    have hdo1 : (drawOnce c (some f) st).1 = t := by
      unfold drawOnce
      simp only [Option.bind, hf]
    rcases hdo : drawOnce c (some f) st with ⟨t0, L, n, st'⟩
    rw [hdo] at h hdo1
    dsimp only at h hdo1
    subst hdo1
    split at h
    · exact ih _ _ _ _ h
    · dsimp only at h
      injection h with h2
      cases h2
      rfl

theorem drawUnique_some_type (c : Ctx) (f : Force) (st : Nat)
    (used : List Nat) (hne : c.delPool ≠ []) :
    (drawUnique c (some f) st used).1.type ∈ c.delPool.map (·.1) ∨
      f.ftype = some ((drawUnique c (some f) st used).1.type) := by
  unfold drawUnique
  rcases hdl : drawLoop c (some f) 200 st used with ⟨o, st'⟩
  cases o with
  | some r =>
    rcases r with ⟨d, u'⟩
    dsimp only
    rcases hf : f.ftype with _ | t
    · left
      -- with no forced type the draw comes from the pool
      have : ∀ (fuel st1 : Nat) (used1 : List Nat) (d1 : Delivery)
          (used1' : List Nat),
          (drawLoop c (some f) fuel st1 used1).1 = some (d1, used1') →
          d1.type ∈ c.delPool.map (·.1) := by
        intro fuel
        induction fuel with
        | zero => intro st1 used1 d1 used1' h; cases h
        | succ k ih =>
          intro st1 used1 d1 used1' h
          simp only [drawLoop] at h
          have hdo1 : (drawOnce c (some f) st1).1 =
              pickWeighted .standard (rand st1).1 c.delPool := by
            unfold drawOnce
            simp only [Option.bind, hf]
          rcases hdo : drawOnce c (some f) st1 with ⟨t0, L, n, st1'⟩
          rw [hdo] at h hdo1
          dsimp only at h hdo1
          split at h
          · exact ih _ _ _ _ h
          · dsimp only at h
            injection h with h2
            cases h2
            dsimp only
            rw [hdo1]
            exact pickWeighted_mem _ _ _ hne
      exact this 200 st used d u' (by rw [hdl])
    · right
      have hd := drawLoop_forced_type c f t hf 200 st used d u' (by rw [hdl])
      rw [hd]
  | none =>
    dsimp only
    left
    rcases hpool : c.delPool with _ | ⟨p, rest⟩
    · exact absurd hpool hne
    · simp [hpool]

theorem fillSeq_types (c : Ctx) (hne : c.delPool ≠ []) :
    ∀ (n st : Nat) (used : List Nat) (d : Delivery),
      d ∈ (fillSeq c n st used).1 → d.type ∈ c.delPool.map (·.1) := by
  intro n
  induction n with
  | zero => intro st used d h; cases h
  | succ k ih =>
    intro st used d h
    simp only [fillSeq] at h
    cases h with
    | head => exact drawUnique_none_type c st used hne
    | tail _ h => exact ih _ _ _ h

end Lib

namespace Lib

theorem generateDeliveries_types (b : Bowler) (balls : Nat) (ph : PhaseId)
    (pi : PitchType) (salt : List Nat) (d : Delivery)
    (hd : d ∈ generateDeliveries b balls ph pi salt) :
    d.type ∈ ((gdCtx b ph pi).delPool).map (·.1) ∨
      (trapFor b ph).setup1.ftype = some d.type ∨
      (trapFor b ph).setup2.ftype = some d.type ∨
      (trapFor b ph).payoff.ftype = some d.type := by
  have hne := gdCtx_delPool_ne b ph pi
  unfold generateDeliveries at hd
  dsimp only at hd
  rcases hfs : fillSeq (gdCtx b ph pi) balls
      (generateSeed b ph pi salt) [] with ⟨out, st, used⟩
  rw [hfs] at hd
  dsimp only at hd
  split at hd
  · rcases hd1 : drawUnique (gdCtx b ph pi) (some (trapFor b ph).setup1)
        st used with ⟨d1, st1, u1⟩
    rw [hd1] at hd
    dsimp only at hd
    rcases hd2 : drawUnique (gdCtx b ph pi) (some (trapFor b ph).setup2)
        st1 u1 with ⟨d2, st2, u2⟩
    rw [hd2] at hd
    dsimp only at hd
    rcases hd3 : drawUnique (gdCtx b ph pi) (some (trapFor b ph).payoff)
        st2 u2 with ⟨d3, st3, u3⟩
    rw [hd3] at hd
    dsimp only at hd
    rcases List.mem_or_eq_of_mem_set hd with hd | rfl
    · rcases List.mem_or_eq_of_mem_set hd with hd | rfl
      · rcases List.mem_or_eq_of_mem_set hd with hd | rfl
        · left
          have : out = (fillSeq (gdCtx b ph pi) balls
              (generateSeed b ph pi salt) []).1 := by rw [hfs]
          rw [this] at hd
          exact fillSeq_types _ hne _ _ _ _ hd
        · have := drawUnique_some_type (gdCtx b ph pi)
            (trapFor b ph).setup1 st used hne
          rw [hd1] at this
          rcases this with h | h
          · left; exact h
          · right; left; exact h
      · have := drawUnique_some_type (gdCtx b ph pi)
          (trapFor b ph).setup2 st1 u1 hne
        rw [hd2] at this
        rcases this with h | h
        · left; exact h
        · right; right; left; exact h
    · have := drawUnique_some_type (gdCtx b ph pi)
        (trapFor b ph).payoff st2 u2 hne
      rw [hd3] at this
      rcases this with h | h
      · left; exact h
      · right; right; right; exact h
  · left
    have : out = (fillSeq (gdCtx b ph pi) balls
        (generateSeed b ph pi salt) []).1 := by rw [hfs]
    rw [this] at hd
    exact fillSeq_types _ hne _ _ _ _ hd

theorem trapForPace_types (ph : PhaseId) (t : DeliveryType)
    (h : (trapForPace ph).setup1.ftype = some t ∨
      (trapForPace ph).setup2.ftype = some t ∨
      (trapForPace ph).payoff.ftype = some t) :
    t ∈ DELIVERY_TYPES_PACE := by
  cases ph <;>
    simp only [trapForPace, mkForce, Option.some.injEq] at h <;>
    rcases h with rfl | rfl | rfl <;> decide

theorem trapForSpin_types (ph : PhaseId) (t : DeliveryType)
    (h : (trapForSpin ph).setup1.ftype = some t ∨
      (trapForSpin ph).setup2.ftype = some t ∨
      (trapForSpin ph).payoff.ftype = some t) :
    t ∈ DELIVERY_TYPES_SPIN := by
  cases ph <;>
    simp only [trapForSpin, mkForce, Option.some.injEq] at h <;>
    rcases h with rfl | rfl | rfl <;> decide

theorem generateDeliveries_pace_types (b : Bowler) (balls : Nat)
    (ph : PhaseId) (pi : PitchType) (salt : List Nat) (d : Delivery)
    (hspin : hasSub b.btype (codes "spin") = false)
    (hd : d ∈ generateDeliveries b balls ph pi salt) :
    d.type ∈ DELIVERY_TYPES_PACE := by
  have htrap : trapFor b ph = trapForPace ph := by
    unfold trapFor
    rw [hspin]
    simp
  rcases generateDeliveries_types b balls ph pi salt d hd with h | h
  · exact buildWeightedPools_del_keys_pace b hspin ph pi _ h
  · rw [htrap] at h
    exact trapForPace_types ph d.type h

theorem generateDeliveries_spin_types (b : Bowler) (balls : Nat)
    (ph : PhaseId) (salt : List Nat) (d : Delivery)
    (hspin : hasSub b.btype (codes "spin") = true)
    (hd : d ∈ generateDeliveries b balls ph .normal salt) :
    d.type ∈ DELIVERY_TYPES_SPIN := by
  have htrap : trapFor b ph = trapForSpin ph := by
    unfold trapFor
    rw [hspin]
    simp
  rcases generateDeliveries_types b balls ph .normal salt d hd with h | h
  · exact buildWeightedPools_del_keys_spin_normal b hspin ph _ h
  · rw [htrap] at h
    exact trapForSpin_types ph d.type h

end Lib

/-! ## Lemmas: archetype legality (page engine) -/

namespace Page

theorem wcGo_mem {α : Type} [DecidableEq α] (disallow : List α) (fb : α) :
    ∀ (items : List (α × Int)) (r : Q),
      wcGo disallow fb r items ∈ items.map (·.1) ∨
        wcGo disallow fb r items = fb := by
  intro items
  induction items with
  | nil => intro r; right; rfl
  | cons p rest ih =>
    intro r
    rcases p with ⟨a, v⟩
    simp only [wcGo, List.map_cons]
    split
    · rcases ih r with h | h
      · left; exact List.mem_cons_of_mem _ h
      · right; exact h
    · split
      · left; exact List.mem_cons_self _ _
      · rcases ih (r - Q.ofInt (max 0 v)) with h | h
        · left; exact List.mem_cons_of_mem _ h
        · right; exact h

theorem weightedChoice_mem {α : Type} [DecidableEq α] (dflt : α) (u : Q)
    (weights : List (α × Int)) (disallow : List α) (hne : weights ≠ []) :
    weightedChoice dflt u weights disallow ∈ weights.map (·.1) := by
  unfold weightedChoice
  rcases wcGo_mem disallow _ weights _ with h | h
  · exact h
  · rw [h]
    rcases hw : weights with _ | ⟨p, rest⟩
    · exact absurd hw hne
    · simp

theorem wget_isSome_mem {α β : Type} [DecidableEq α] (w : List (α × β))
    (k : α) (h : (wget w k).isSome = true) : k ∈ w.map (·.1) := by
  unfold wget at h
  rcases hf : w.find? (fun p => p.1 = k) with _ | p
  · rw [hf] at h; cases h
  · have hmem := List.mem_of_find?_eq_some hf
    have hpred := List.find?_some hf
    simp only [decide_eq_true_eq] at hpred
    rw [← hpred]
    exact List.mem_map_of_mem _ hmem

theorem filter_keys_mem {α β : Type} [DecidableEq α] (w : List (α × β))
    (allowed : List α) :
    ∀ x ∈ (w.filter (fun p => allowed.contains p.1)).map (·.1),
      x ∈ allowed := by
  intro x hx
  rcases List.mem_map.mp hx with ⟨p, hp, rfl⟩
  have := (List.mem_filter.mp hp).2
  exact List.mem_of_elem_eq_true this

theorem safety_ne (lt0 : List (Ball × Int)) (c : Bool) :
    (if lt0.isEmpty then
      (if c then [(Ball.offBreak, (1 : Int))] else [(Ball.seam, 1)])
     else lt0) ≠ [] := by
  cases lt0 <;> cases c <;> simp

theorem localTypeFor_ne (c : Ctx) (i : Nat) : localTypeFor c i ≠ [] := by
  unfold localTypeFor
  have h0 := safety_ne
    (c.typesBase.filter (fun p => c.allowed.contains p.1)) c.isSpin
  repeat' first
    | exact wadd_ne_nil _ _ _ _
    | exact h0
    | (refine ne_nil_ite _ _ _ ?_ ?_)

end Page

namespace Page

theorem spinPulse_stage (allowed : List Ball) (w : List (Ball × Int))
    (k : Ball) (δ : Int) (hw : ∀ x ∈ w.map (·.1), x ∈ allowed) :
    ∀ x ∈ ((if (wget w k).isSome = true then wadd w k 0 δ else w)).map (·.1),
      x ∈ allowed := by
  split
  case isTrue h =>
    exact wadd_keys_subset _ _ _ _ _ hw (hw _ (wget_isSome_mem _ _ h))
  case isFalse => exact hw

theorem localTypeFor_keys (c : Ctx) (i : Nat)
    (hfne : c.typesBase.filter (fun p => c.allowed.contains p.1) ≠ [])
    (hpc : c.isSpin = false → ∀ k ∈ ([.bouncer, .outswing, .inswing, .seam,
      .cutter, .slowerBall] : List Ball), k ∈ c.allowed) :
    ∀ x ∈ (localTypeFor c i).map (·.1), x ∈ c.allowed := by
  unfold localTypeFor
  dsimp only
  have hemp : (c.typesBase.filter
      (fun p => c.allowed.contains p.1)).isEmpty = false := by
    rcases h : c.typesBase.filter (fun p => c.allowed.contains p.1)
      with _ | ⟨p, r⟩
    · exact absurd h hfne
    · rw [h]; rfl
  rw [hemp]
  simp only [Bool.false_eq_true, if_false]
  have hk0 := filter_keys_mem c.typesBase c.allowed
  cases hs : c.isSpin
  · simp only [Bool.not_false, if_true]
    repeat' first
      | exact hk0
      | (refine wadd_keys_subset _ _ _ _ _ ?_ (hpc hs _ (by decide)))
      | (refine keys_ite _ _ _ _ ?_ ?_)
  · simp only [Bool.not_true, Bool.false_eq_true, if_false]
    refine keys_ite _ _ _ _ hk0 ?_
    exact spinPulse_stage _ _ _ _ (spinPulse_stage _ _ _ _
      (spinPulse_stage _ _ _ _ hk0))

end Page

namespace Page

theorem bvpStep_type_mem (c : Ctx) (i st : Nat) (rec : List Ball)
    (hfne : c.typesBase.filter (fun p => c.allowed.contains p.1) ≠ [])
    (hpc : c.isSpin = false → ∀ k ∈ ([.bouncer, .outswing, .inswing, .seam,
      .cutter, .slowerBall] : List Ball), k ∈ c.allowed) :
    (bvpStep c i st rec).1.type ∈ c.allowed := by
  have hm := weightedChoice_mem Ball.seam (rand st).1 (localTypeFor c i)
    (disallowFor rec) (localTypeFor_ne c i)
  exact localTypeFor_keys c i hfne hpc _ hm

theorem bvpLoop_type_mem (c : Ctx)
    (hfne : c.typesBase.filter (fun p => c.allowed.contains p.1) ≠ [])
    (hpc : c.isSpin = false → ∀ k ∈ ([.bouncer, .outswing, .inswing, .seam,
      .cutter, .slowerBall] : List Ball), k ∈ c.allowed) :
    ∀ (n i st : Nat) (rec : List Ball) (d : Delivery),
      d ∈ bvpLoop c n i st rec → d.type ∈ c.allowed := by
  intro n
  induction n with
  | zero => intro i st rec d h; cases h
  | succ k ih =>
    intro i st rec d h
    simp only [bvpLoop] at h
    cases h with
    | head => exact bvpStep_type_mem c i st rec hfne hpc
    | tail _ h => exact ih _ _ _ _ h

theorem mkCtx_typesBase_spin (b : Bowler) (ph : PhaseId) (pi : PitchType)
    (h : hasSub (btypeCodes b.btype) (codes "spin") = true) :
    (mkCtx b ph pi).typesBase =
      SpinW.toList (deriveSpinWeights b ph pi (b.strengths.map lowerCodes)
        (lowerCodes b.strategies)) := by
  unfold mkCtx
  dsimp only
  rw [h]
  simp

theorem mkCtx_typesBase_pace (b : Bowler) (ph : PhaseId) (pi : PitchType)
    (h : hasSub (btypeCodes b.btype) (codes "spin") = false) :
    (mkCtx b ph pi).typesBase =
      PaceW.toList (derivePaceWeights b ph pi (b.strengths.map lowerCodes)
        (lowerCodes b.strategies)) := by
  unfold mkCtx
  dsimp only
  rw [h]
  simp

theorem allowedTypesFor_of_not_spin (b : Bowler)
    (h : hasSub (btypeCodes b.btype) (codes "spin") = false) :
    allowedTypesFor b = [.outswing, .inswing, .seam, .cutter, .slowerBall,
      .knuckle, .bouncer] := by
  cases hb : b.btype
  case pace => simp [allowedTypesFor, hb]
  case swing => simp [allowedTypesFor, hb]
  case seam => simp [allowedTypesFor, hb]
  case leftarmPace => simp [allowedTypesFor, hb]
  case legspin => rw [hb] at h; exact absurd h (by decide)
  case offspin => rw [hb] at h; exact absurd h (by decide)
  case leftarmSpin => rw [hb] at h; exact absurd h (by decide)

theorem mkCtx_filter_ne (b : Bowler) (ph : PhaseId) (pi : PitchType) :
    (mkCtx b ph pi).typesBase.filter
      (fun p => (mkCtx b ph pi).allowed.contains p.1) ≠ [] := by
  have hall : (mkCtx b ph pi).allowed = allowedTypesFor b := rfl
  cases hsp : hasSub (btypeCodes b.btype) (codes "spin")
  · rw [mkCtx_typesBase_pace b ph pi hsp, hall,
      allowedTypesFor_of_not_spin b hsp]
    refine List.ne_nil_of_mem (List.mem_filter.mpr
      ⟨(by simp [PaceW.toList] :
        (Ball.outswing, (derivePaceWeights b ph pi
          (b.strengths.map lowerCodes)
          (lowerCodes b.strategies)).outswing) ∈ _), ?_⟩)
    rfl
  · rw [mkCtx_typesBase_spin b ph pi hsp, hall]
    cases hb : b.btype
    case legspin =>
      refine List.ne_nil_of_mem (List.mem_filter.mpr
        ⟨(by simp [SpinW.toList] :
          (Ball.legBreak, (deriveSpinWeights b ph pi
            (b.strengths.map lowerCodes)
            (lowerCodes b.strategies)).legBreak) ∈ _), ?_⟩)
      simp [allowedTypesFor, hb]
    case offspin =>
      refine List.ne_nil_of_mem (List.mem_filter.mpr
        ⟨(by simp [SpinW.toList] :
          (Ball.offBreak, (deriveSpinWeights b ph pi
            (b.strengths.map lowerCodes)
            (lowerCodes b.strategies)).offBreak) ∈ _), ?_⟩)
      simp [allowedTypesFor, hb]
    case leftarmSpin =>
      refine List.ne_nil_of_mem (List.mem_filter.mpr
        ⟨(by simp [SpinW.toList] :
          (Ball.offBreak, (deriveSpinWeights b ph pi
            (b.strengths.map lowerCodes)
            (lowerCodes b.strategies)).offBreak) ∈ _), ?_⟩)
      simp [allowedTypesFor, hb]
    case pace => rw [hb] at hsp; exact absurd hsp (by decide)
    case swing => rw [hb] at hsp; exact absurd hsp (by decide)
    case seam => rw [hb] at hsp; exact absurd hsp (by decide)
    case leftarmPace => rw [hb] at hsp; exact absurd hsp (by decide)

theorem mkCtx_hpc (b : Bowler) (ph : PhaseId) (pi : PitchType) :
    (mkCtx b ph pi).isSpin = false →
    ∀ k ∈ ([.bouncer, .outswing, .inswing, .seam, .cutter,
      .slowerBall] : List Ball), k ∈ (mkCtx b ph pi).allowed := by
  intro hs k hk
  have hsp : hasSub (btypeCodes b.btype) (codes "spin") = false := hs
  have hall : (mkCtx b ph pi).allowed = allowedTypesFor b := rfl
  rw [hall, allowedTypesFor_of_not_spin b hsp]
  simp only [List.mem_cons, List.not_mem_nil, or_false] at hk
  rcases hk with rfl | rfl | rfl | rfl | rfl | rfl <;> decide

theorem buildVariedPlan_types (b : Bowler) (overs : Nat) (ph : PhaseId)
    (pi : PitchType) (salt : List Nat) (d : Delivery)
    (hd : d ∈ buildVariedPlan b overs ph pi salt) :
    d.type ∈ allowedTypesFor b := by
  have := bvpLoop_type_mem (mkCtx b ph pi) (mkCtx_filter_ne b ph pi)
    (mkCtx_hpc b ph pi) (max 1 overs * 6) 0
    (variedSeed b overs ph pi salt) [] d hd
  exact this

end Page

/-! ## Claim C2 -/

set_option maxRecDepth 20000 in
/-- C2 counterexample: archetype legality fails in the lib engine. A
leg-spin bowler (`sampleLegSpin`, archetype string "Leg-spin") generating
one powerplay ball on a Green pitch with salt "g9" receives a Cross seam
delivery - a pace-family type, not a spin type at all - because the Green
pitch modifier inserts "Cross seam" into the delivery pool of every
bowler, spin included. Moreover even on a Normal pitch the same leg-spin
bowler (6 balls, middle phase, salt "s1") receives an Off-break, which
lies outside the leg-spin subtype set {leg-break, googly, top-spinner}
that the page engine's `allowedTypesFor` assigns to a leg-spin bowler. -/
theorem c2_counterexample :
    ((Lib.generateDeliveries Lib.sampleLegSpin 1 .powerplay .green
        (codes "g9")).map (fun d => d.type)).contains .crossSeam = true ∧
    Lib.DeliveryType.crossSeam ∈ Lib.DELIVERY_TYPES_PACE ∧
    Lib.DeliveryType.crossSeam ∉ Lib.DELIVERY_TYPES_SPIN ∧
    ((Lib.generateDeliveries Lib.sampleLegSpin 6 .middle .normal
        (codes "s1")).map (fun d => d.type)).contains .offBreak = true ∧
    Page.sampleLegSpin.btype = .legspin ∧
    Page.Ball.offBreak ∉ Page.allowedTypesFor Page.sampleLegSpin := by
  refine ⟨by decide, by decide, by decide, by decide, by decide, by decide⟩

/-- C2 amended: family-level legality holds with these provisos. (1) In
the lib engine a pace-archetype bowler (type string not containing
"spin") receives only types from the pace family list, on every pitch.
(2) In the lib engine a spin-archetype bowler receives only types from
the spin family list on a Normal pitch (on Green/Dusty/Dry pitches the
pitch modifier can insert pace types into the spin pool, and no
spin-subtype restriction is applied at all). (3) In the page engine
(buildVariedPlan) every delivery's type lies in `allowedTypesFor` of the
bowler, which does restrict to the archetype-specific subtype set. -/
theorem c2_amended :
    (∀ (b : Lib.Bowler) (balls : Nat) (ph : Lib.PhaseId)
        (pi : Lib.PitchType) (salt : List Nat) (d : Lib.Delivery),
      hasSub b.btype (codes "spin") = false →
      d ∈ Lib.generateDeliveries b balls ph pi salt →
      d.type ∈ Lib.DELIVERY_TYPES_PACE) ∧
    (∀ (b : Lib.Bowler) (balls : Nat) (ph : Lib.PhaseId)
        (salt : List Nat) (d : Lib.Delivery),
      hasSub b.btype (codes "spin") = true →
      d ∈ Lib.generateDeliveries b balls ph .normal salt →
      d.type ∈ Lib.DELIVERY_TYPES_SPIN) ∧
    (∀ (b : Page.Bowler) (overs : Nat) (ph : Page.PhaseId)
        (pi : Page.PitchType) (salt : List Nat) (d : Page.Delivery),
      d ∈ Page.buildVariedPlan b overs ph pi salt →
      d.type ∈ Page.allowedTypesFor b) := by
  refine ⟨?_, ?_, ?_⟩
  · intro b balls ph pi salt d hspin hd
    exact Lib.generateDeliveries_pace_types b balls ph pi salt d hspin hd
  · intro b balls ph salt d hspin hd
    exact Lib.generateDeliveries_spin_types b balls ph salt d hspin hd
  · intro b overs ph pi salt d hd
    exact Page.buildVariedPlan_types b overs ph pi salt d hd

/-- C2 amended, witnessed at concrete inputs: a seam bowler's run on a
Green pitch is all pace types, a leg-spin bowler's Normal-pitch run is
all spin types, and a page-engine leg-spin plan stays in its allowed
subtype set. -/
theorem c2_amended_witness :
    ((Lib.generateDeliveries Lib.sampleSeam 1 .middle .green
        (codes "w")).all
      (fun d => decide (d.type ∈ Lib.DELIVERY_TYPES_PACE)) = true) ∧
    ((Lib.generateDeliveries Lib.sampleLegSpin 1 .middle .normal
        (codes "w")).all
      (fun d => decide (d.type ∈ Lib.DELIVERY_TYPES_SPIN)) = true) ∧
    ((Page.buildVariedPlan Page.sampleLegSpin 1 .middle .normal
        (codes "w")).all
      (fun d => decide (d.type ∈ Page.allowedTypesFor
        Page.sampleLegSpin)) = true) := by
  refine ⟨?_, ?_, ?_⟩
  · exact List.all_eq_true.mpr (fun d hd => decide_eq_true
      (c2_amended.1 Lib.sampleSeam 1 .middle .green (codes "w") d
        (by decide) hd))
  · exact List.all_eq_true.mpr (fun d hd => decide_eq_true
      (c2_amended.2.1 Lib.sampleLegSpin 1 .middle (codes "w") d
        (by decide) hd))
  · exact List.all_eq_true.mpr (fun d hd => decide_eq_true
      (c2_amended.2.2 Page.sampleLegSpin 1 .middle .normal (codes "w")
        d hd))

namespace Lib

theorem drawLoop_forced_fresh (c : Ctx) (t : DeliveryType) (L : Length)
    (n : Line) (p : String) (fuel st : Nat) (used : List Nat)
    (h : used.contains (tripleKey t L n) = false) :
    drawLoop c (some (mkForce t L n p)) (fuel + 1) st used =
      ((some ({ over := 1, type := t, length := L, line := n,
                purpose := p }, tripleKey t L n :: used)), st) := by
  have h' : tripleKey t L n ∉ used := by simpa using h
  simp only [drawLoop, drawOnce, mkForce, Option.bind]
  simp [h']

theorem drawUnique_forced_fresh (c : Ctx) (t : DeliveryType) (L : Length)
    (n : Line) (p : String) (st : Nat) (used : List Nat)
    (h : used.contains (tripleKey t L n) = false) :
    drawUnique c (some (mkForce t L n p)) st used =
      ({ over := 1, type := t, length := L, line := n, purpose := p },
        st, tripleKey t L n :: used) := by
  unfold drawUnique
  have h200 : (200 : Nat) = 199 + 1 := rfl
  rw [h200, drawLoop_forced_fresh c t L n p 199 st used h]

end Lib

namespace Lib

theorem generateDeliveries_trap_slots (b : Bowler) (balls : Nat)
    (ph : PhaseId) (pi : PitchType) (salt : List Nat)
    (t1 : DeliveryType) (L1 : Length) (n1 : Line) (p1 : String)
    (t2 : DeliveryType) (L2 : Length) (n2 : Line) (p2 : String)
    (t3 : DeliveryType) (L3 : Length) (n3 : Line) (p3 : String)
    (htrap : trapFor b ph = ⟨mkForce t1 L1 n1 p1, mkForce t2 L2 n2 p2,
      mkForce t3 L3 n3 p3⟩)
    (h6 : 6 ≤ balls)
    (h1 : ((fillSeq (gdCtx b ph pi) balls (generateSeed b ph pi salt)
      []).2.2).contains (tripleKey t1 L1 n1) = false)
    (h2 : (tripleKey t1 L1 n1 :: (fillSeq (gdCtx b ph pi) balls
      (generateSeed b ph pi salt) []).2.2).contains
        (tripleKey t2 L2 n2) = false)
    (h3 : (tripleKey t2 L2 n2 :: tripleKey t1 L1 n1 ::
      (fillSeq (gdCtx b ph pi) balls
        (generateSeed b ph pi salt) []).2.2).contains
          (tripleKey t3 L3 n3) = false) :
    (generateDeliveries b balls ph pi salt)[balls / 2 - 2]? =
      some { over := 1, type := t1, length := L1, line := n1,
             purpose := p1 } ∧
    (generateDeliveries b balls ph pi salt)[balls / 2 - 2 + 1]? =
      some { over := 1, type := t2, length := L2, line := n2,
             purpose := p2 } ∧
    (generateDeliveries b balls ph pi salt)[balls / 2 - 2 + 2]? =
      some { over := 1, type := t3, length := L3, line := n3,
             purpose := p3 } := by
  unfold generateDeliveries
  dsimp only
  rcases hfs : fillSeq (gdCtx b ph pi) balls (generateSeed b ph pi salt) []
    with ⟨out, st, used⟩
  rw [hfs] at h1 h2 h3
  dsimp only at h1 h2 h3 ⊢
  rw [if_pos h6, htrap]
  dsimp only
  rw [drawUnique_forced_fresh (gdCtx b ph pi) t1 L1 n1 p1 st used h1]
  dsimp only
  rw [drawUnique_forced_fresh (gdCtx b ph pi) t2 L2 n2 p2 st
    (tripleKey t1 L1 n1 :: used) h2]
  dsimp only
  rw [drawUnique_forced_fresh (gdCtx b ph pi) t3 L3 n3 p3 st
    (tripleKey t2 L2 n2 :: tripleKey t1 L1 n1 :: used) h3]
  dsimp only
  have hlen : out.length = balls := by
    have hl := fillSeq_length (gdCtx b ph pi) balls
      (generateSeed b ph pi salt) []
    rw [hfs] at hl
    exact hl
  refine ⟨?_, ?_, ?_⟩
  · rw [List.getElem?_set_ne
        (show balls / 2 - 2 + 2 ≠ balls / 2 - 2 by omega),
      List.getElem?_set_ne
        (show balls / 2 - 2 + 1 ≠ balls / 2 - 2 by omega),
      List.getElem?_set, if_pos rfl, if_pos (by rw [hlen]; omega)]
  · rw [List.getElem?_set_ne
        (show balls / 2 - 2 + 2 ≠ balls / 2 - 2 + 1 by omega),
      List.getElem?_set, if_pos rfl,
      if_pos (by rw [List.length_set, hlen]; omega)]
  · rw [List.getElem?_set, if_pos rfl,
      if_pos (by rw [List.length_set, List.length_set, hlen]; omega)]

end Lib

/-! ## Claim C3 -/

set_option maxRecDepth 100000 in
/-- C3 counterexample: the trap overwrite does not bypass the uniqueness
check. For the leg-spin bowler, 12 balls, middle phase, Normal pitch,
salt "t9", the slot s+1 = 5 (s = 12/2-2 = 4) should per the claim hold
the middle spin trap's second setup triple (Googly, Good, 4th stump)
with the literal purpose "Opposite turn threat"; instead, because that
triple had already been drawn in the fill phase, the forced draw
exhausts its 200 attempts and falls back to the first entries of the
three pools, producing (Off-break, Full, Off stump) with an
annotator-generated purpose. -/
theorem c3_counterexample :
    hasSub Lib.sampleLegSpin.btype (codes "spin") = true ∧
    (Lib.trapFor Lib.sampleLegSpin .middle).setup2 =
      Lib.mkForce .googly .good .fourthStump "Opposite turn threat" ∧
    max 0 (12 / 2 - 2) = 4 ∧
    ((Lib.generateDeliveries Lib.sampleLegSpin 12 .middle .normal
        (codes "t9")).map
      (fun d => (d.type, d.length, d.line, d.purpose)))[5]? =
      some (.offBreak, .full, .offStump,
        "Off-break • Full at Off stump") ∧
    (Lib.DeliveryType.offBreak ≠ Lib.DeliveryType.googly) := by
  refine ⟨by decide, by decide, by decide, by decide, by decide⟩

/-- C3 amended: the trap overwrite places the literal setup/payoff
triples (with their literal purposes) at slots s, s+1, s+2 only under
the extra proviso that each forced triple's key is fresh - not among
the keys drawn during the fill phase nor equal to an earlier trap key.
The forced draws go through the same `drawUnique` uniqueness check, and
when a trap key was already used the forced draw falls back instead of
writing the literal. -/
theorem c3_amended (b : Lib.Bowler) (balls : Nat) (ph : Lib.PhaseId)
    (pi : Lib.PitchType) (salt : List Nat)
    (t1 : Lib.DeliveryType) (L1 : Lib.Length) (n1 : Lib.Line) (p1 : String)
    (t2 : Lib.DeliveryType) (L2 : Lib.Length) (n2 : Lib.Line) (p2 : String)
    (t3 : Lib.DeliveryType) (L3 : Lib.Length) (n3 : Lib.Line) (p3 : String)
    (htrap : Lib.trapFor b ph = ⟨Lib.mkForce t1 L1 n1 p1,
      Lib.mkForce t2 L2 n2 p2, Lib.mkForce t3 L3 n3 p3⟩)
    (h6 : 6 ≤ balls)
    (h1 : ((Lib.fillSeq (Lib.gdCtx b ph pi) balls
      (Lib.generateSeed b ph pi salt) []).2.2).contains
        (Lib.tripleKey t1 L1 n1) = false)
    (h2 : (Lib.tripleKey t1 L1 n1 :: (Lib.fillSeq (Lib.gdCtx b ph pi) balls
      (Lib.generateSeed b ph pi salt) []).2.2).contains
        (Lib.tripleKey t2 L2 n2) = false)
    (h3 : (Lib.tripleKey t2 L2 n2 :: Lib.tripleKey t1 L1 n1 ::
      (Lib.fillSeq (Lib.gdCtx b ph pi) balls
        (Lib.generateSeed b ph pi salt) []).2.2).contains
          (Lib.tripleKey t3 L3 n3) = false) :
    (Lib.generateDeliveries b balls ph pi salt)[balls / 2 - 2]? =
      some { over := 1, type := t1, length := L1, line := n1,
             purpose := p1 } ∧
    (Lib.generateDeliveries b balls ph pi salt)[balls / 2 - 2 + 1]? =
      some { over := 1, type := t2, length := L2, line := n2,
             purpose := p2 } ∧
    (Lib.generateDeliveries b balls ph pi salt)[balls / 2 - 2 + 2]? =
      some { over := 1, type := t3, length := L3, line := n3,
             purpose := p3 } :=
  Lib.generateDeliveries_trap_slots b balls ph pi salt
    t1 L1 n1 p1 t2 L2 n2 p2 t3 L3 n3 p3 htrap h6 h1 h2 h3

set_option maxRecDepth 100000 in
/-- C3 amended, witnessed: for the leg-spin bowler, 12 balls, middle
phase, Normal pitch, salt "t0", all three trap keys are fresh, and the
slots 4, 5, 6 hold exactly the middle spin trap literals. -/
theorem c3_amended_witness :
    (Lib.generateDeliveries Lib.sampleLegSpin 12 .middle .normal
      (codes "t0"))[4]? =
      some { over := 1, type := .offBreak, length := .good,
             line := .outsideOff,
             purpose := "Drive temptation with turn risk" } ∧
    (Lib.generateDeliveries Lib.sampleLegSpin 12 .middle .normal
      (codes "t0"))[5]? =
      some { over := 1, type := .googly, length := .good,
             line := .fourthStump,
             purpose := "Opposite turn threat" } ∧
    (Lib.generateDeliveries Lib.sampleLegSpin 12 .middle .normal
      (codes "t0"))[6]? =
      some { over := 1, type := .armBall, length := .full,
             line := .middleStump,
             purpose := "Skid on for lbw/bowled" } :=
  c3_amended Lib.sampleLegSpin 12 .middle .normal (codes "t0")
    .offBreak .good .outsideOff "Drive temptation with turn risk"
    .googly .good .fourthStump "Opposite turn threat"
    .armBall .full .middleStump "Skid on for lbw/bowled"
    (by decide) (by decide) (by decide) (by decide) (by decide)

namespace Lib

theorem drawLoop_none_spec (c : Ctx) :
    ∀ (fuel st : Nat) (used : List Nat) (d : Delivery) (used' : List Nat),
      (drawLoop c none fuel st used).1 = some (d, used') →
      used' = tripleOf d :: used ∧ used.contains (tripleOf d) = false := by
  intro fuel
  induction fuel with
  | zero => intro st used d used' h; cases h
  | succ k ih =>
    intro st used d used' h
    simp only [drawLoop] at h
    rcases hdo : drawOnce c none st with ⟨t, L, n, st'⟩
    rw [hdo] at h
    dsimp only at h
    split at h
    · exact ih _ _ _ _ h
    · dsimp only at h
      injection h with h2
      injection h2 with hd hu
      subst hd
      subst hu
      rename_i hcond
      constructor
      · rfl
      · simpa using hcond

theorem fillSeq_keys_spec (c : Ctx) :
    ∀ (n st : Nat) (used : List Nat),
      fillNoFallbackB c n st used = true →
      ((fillSeq c n st used).1.map tripleOf).Nodup ∧
      (∀ k ∈ (fillSeq c n st used).1.map tripleOf, k ∉ used) := by
  intro n
  induction n with
  | zero =>
    intro st used _
    refine ⟨by simp [fillSeq], ?_⟩
    intro k hk
    simp [fillSeq] at hk
  | succ m ih =>
    intro st used h
    simp only [fillNoFallbackB, Bool.and_eq_true] at h
    obtain ⟨hsome, hrest⟩ := h
    rcases hdl : drawLoop c none 200 st used with ⟨o, st'⟩
    rw [hdl] at hsome
    dsimp only at hsome
    cases o with
    | none => simp at hsome
    | some r =>
      rcases r with ⟨d, used'⟩
      have hspec := drawLoop_none_spec c 200 st used d used' (by rw [hdl])
      have hdu : drawUnique c none st used = (d, st', used') := by
        unfold drawUnique
        rw [hdl]
      rw [hdu] at hrest
      dsimp only at hrest
      obtain ⟨hnd, hfresh⟩ := ih st' used' hrest
      simp only [fillSeq]
      rw [hdu]
      dsimp only
      simp only [List.map_cons]
      constructor
      · refine (List.nodup_cons).mpr ⟨?_, hnd⟩
        intro hmem
        exact hfresh _ hmem (by rw [hspec.1]; exact List.mem_cons_self _ _)
      · intro k hk
        rcases (List.mem_cons).mp hk with rfl | hk'
        · simpa using hspec.2
        · intro hku
          exact hfresh _ hk' (by rw [hspec.1]; exact List.mem_cons_of_mem _ hku)

theorem generateDeliveries_outside_window (b : Bowler) (balls : Nat)
    (ph : PhaseId) (pi : PitchType) (salt : List Nat) (i : Nat)
    (hi : ¬ (6 ≤ balls ∧ balls / 2 - 2 ≤ i ∧ i ≤ balls / 2 - 2 + 2)) :
    (generateDeliveries b balls ph pi salt)[i]? =
      ((fillSeq (gdCtx b ph pi) balls
        (generateSeed b ph pi salt) []).1)[i]? := by
  unfold generateDeliveries
  dsimp only
  rcases hfs : fillSeq (gdCtx b ph pi) balls (generateSeed b ph pi salt) []
    with ⟨out, st, used⟩
  dsimp only
  by_cases h6 : 6 ≤ balls
  · rw [if_pos h6,
      List.getElem?_set_ne (show balls / 2 - 2 + 2 ≠ i by omega),
      List.getElem?_set_ne (show balls / 2 - 2 + 1 ≠ i by omega),
      List.getElem?_set_ne (show balls / 2 - 2 ≠ i by omega)]
  · rw [if_neg h6]

end Lib

/-! ## Claim C4 -/

set_option maxRecDepth 400000 in
set_option maxHeartbeats 40000000 in
/-- C4 counterexample: local uniqueness can fail outside the trap window
even when the ball count is far below the number of distinct legal
combinations. A leg-spin bowler whose strength tags concentrate the type
draw on the googly (`stressLegSpin`), 52 balls (52 ≤ 270 = 6 spin types
× 5 lengths × 9 lines), middle phase, Normal pitch, salt "u184": the
200-attempt retry of `drawUnique` exhausts and its fallback emits the
first pool entries (Off-break, Full, Off stump) without recording the
triple as used, so indices 49 and 50 - both outside the trap window
{24, 25, 26} starting at 52/2-2 = 24 - carry the same triple. -/
theorem c4_counterexample :
    hasSub Lib.stressLegSpin.btype (codes "spin") = true ∧
    Lib.DELIVERY_TYPES_SPIN.length * Lib.LENGTHS.length *
      Lib.LINES.length = 270 ∧
    52 ≤ 270 ∧
    52 / 2 - 2 = 24 ∧
    (((Lib.generateDeliveries Lib.stressLegSpin 52 .middle .normal
        (codes "u184")).map Lib.tripleOf).drop 49).take 2 =
      [Lib.tripleKey .offBreak .full .offStump,
       Lib.tripleKey .offBreak .full .offStump] := by
  refine ⟨by decide, by decide, by decide, by decide, by decide⟩

/-- C4 amended: pairwise triple distinctness outside the trap window
holds under the proviso that every draw of the fill phase finds a fresh
triple within its 200-attempt budget (`fillNoFallbackB`); the simple
count bound of the claim does not guarantee this, since the bounded
retry can exhaust and its fallback emits an unrecorded duplicate. -/
theorem c4_amended (b : Lib.Bowler) (balls : Nat) (ph : Lib.PhaseId)
    (pi : Lib.PitchType) (salt : List Nat)
    (hnf : Lib.fillNoFallbackB (Lib.gdCtx b ph pi) balls
      (Lib.generateSeed b ph pi salt) [] = true)
    (i j : Nat) (hij : i ≠ j)
    (hi : ¬ (6 ≤ balls ∧ balls / 2 - 2 ≤ i ∧ i ≤ balls / 2 - 2 + 2))
    (hj : ¬ (6 ≤ balls ∧ balls / 2 - 2 ≤ j ∧ j ≤ balls / 2 - 2 + 2))
    (di dj : Lib.Delivery)
    (hdi : (Lib.generateDeliveries b balls ph pi salt)[i]? = some di)
    (hdj : (Lib.generateDeliveries b balls ph pi salt)[j]? = some dj) :
    Lib.tripleOf di ≠ Lib.tripleOf dj := by
  rw [Lib.generateDeliveries_outside_window b balls ph pi salt i hi] at hdi
  rw [Lib.generateDeliveries_outside_window b balls ph pi salt j hj] at hdj
  obtain ⟨hnd, _⟩ := Lib.fillSeq_keys_spec (Lib.gdCtx b ph pi) balls
    (Lib.generateSeed b ph pi salt) [] hnf
  intro heq
  have hmi : (((Lib.fillSeq (Lib.gdCtx b ph pi) balls
      (Lib.generateSeed b ph pi salt) []).1).map Lib.tripleOf)[i]? =
      some (Lib.tripleOf di) := by
    rw [List.getElem?_map, hdi]
    rfl
  have hmj : (((Lib.fillSeq (Lib.gdCtx b ph pi) balls
      (Lib.generateSeed b ph pi salt) []).1).map Lib.tripleOf)[j]? =
      some (Lib.tripleOf dj) := by
    rw [List.getElem?_map, hdj]
    rfl
  have hilen : i < (((Lib.fillSeq (Lib.gdCtx b ph pi) balls
      (Lib.generateSeed b ph pi salt) []).1).map Lib.tripleOf).length := by
    rcases List.getElem?_eq_some.mp hmi with ⟨hl, _⟩
    exact hl
  exact hij (List.getElem?_inj hilen hnd (by rw [hmi, hmj, heq]))

set_option maxRecDepth 100000 in
/-- C4 amended, witnessed: the leg-spin bowler's 6-ball middle/Normal
run with salt "s1" has a fallback-free fill phase, and its deliveries
at the window-external indices 0 and 4 carry different triples. -/
theorem c4_amended_witness :
    Lib.fillNoFallbackB (Lib.gdCtx Lib.sampleLegSpin .middle .normal) 6
      (Lib.generateSeed Lib.sampleLegSpin .middle .normal (codes "s1"))
      [] = true ∧
    Lib.tripleOf ⟨1, .slider, .backOfLength, .legStump,
      "Slider • Back-of-length at Leg stump"⟩ ≠
      Lib.tripleOf ⟨1, .legBreak, .yorker, .wideOutsideOff,
        "Wide yorker: deny leverage and force toe-end"⟩ :=
  ⟨by decide,
   c4_amended Lib.sampleLegSpin 6 .middle .normal (codes "s1") (by decide)
     0 4 (by decide) (by decide) (by decide)
     ⟨1, .slider, .backOfLength, .legStump,
       "Slider • Back-of-length at Leg stump"⟩
     ⟨1, .legBreak, .yorker, .wideOutsideOff,
       "Wide yorker: deny leverage and force toe-end"⟩
     (by decide) (by decide)⟩

/-! ## Lemmas: the anti-streak disallow mechanism of `weightedChoice` -/

namespace Page

theorem wsum_foldl {α : Type} [DecidableEq α] (disallow : List α) :
    ∀ (l : List (α × Int)) (s : Int),
      l.foldl (fun s p => if disallow.contains p.1 then s
        else s + max 0 p.2) s = s + wsum disallow l := by
  intro l
  induction l with
  | nil => intro s; simp [wsum]
  | cons p rest ih =>
    intro s
    rcases p with ⟨a, v⟩
    simp only [List.foldl_cons, wsum, ih]
    split <;> omega

theorem wsum_nonneg {α : Type} [DecidableEq α] (disallow : List α) :
    ∀ (l : List (α × Int)), 0 ≤ wsum disallow l := by
  intro l
  induction l with
  | nil => simp [wsum]
  | cons p rest ih =>
    rcases p with ⟨a, v⟩
    simp only [wsum]
    split <;> omega

theorem q_sub_ofInt_den (r : Q) (k : Int) :
    (r - Q.ofInt k).den = r.den := by
  show (Q.sub r (Q.ofInt k)).den = r.den
  simp [Q.sub, Q.ofInt]

theorem q_ofInt_toRat (k : Int) : (Q.ofInt k).toRat = (k : ℚ) := by
  simp [Q.ofInt, Q.toRat]

theorem wcGo_avoid {α : Type} [DecidableEq α] (disallow : List α) (fb : α) :
    ∀ (l : List (α × Int)) (r : Q), 0 < r.den → 0 ≤ r.toRat →
      r.toRat < ((wsum disallow l : Int) : ℚ) →
      wcGo disallow fb r l ∉ disallow := by
  intro l
  induction l with
  | nil =>
    intro r _ h0 hlt
    exfalso
    simp only [wsum, Int.cast_zero] at hlt
    linarith
  | cons p rest ih =>
    rcases p with ⟨a, v⟩
    intro r hden h0 hlt
    simp only [wsum] at hlt
    simp only [wcGo]
    by_cases hda : disallow.contains a = true
    · rw [if_pos hda] at hlt
      rw [if_pos hda]
      refine ih r hden h0 ?_
      push_cast at hlt ⊢
      linarith
    · rw [if_neg hda] at hlt
      rw [if_neg hda]
      by_cases hlt2 : r < Q.ofInt (max 0 v)
      · rw [if_pos hlt2]
        simpa using hda
      · rw [if_neg hlt2]
        have hdof : (0 : Nat) < (Q.ofInt (max 0 v)).den := by
          simp [Q.ofInt]
        have hge : ((max 0 v : Int) : ℚ) ≤ r.toRat := by
          by_contra hc
          push_neg at hc
          exact hlt2 ((Q.lt_iff_toRat r (Q.ofInt (max 0 v)) hden hdof).mpr
            (by rw [q_ofInt_toRat]; exact hc))
        clear hlt2
        have hden' : 0 < (r - Q.ofInt (max 0 v)).den := by
          rw [q_sub_ofInt_den]
          exact hden
        have htor : (r - Q.ofInt (max 0 v)).toRat =
            r.toRat - ((max 0 v : Int) : ℚ) := by
          rw [Q.toRat_sub r (Q.ofInt (max 0 v))
            (Nat.pos_iff_ne_zero.mp hden) (by simp [Q.ofInt]),
            q_ofInt_toRat]
        refine ih (r - Q.ofInt (max 0 v)) hden' ?_ ?_
        · rw [htor]
          linarith
        · rw [htor]
          push_cast at hlt ⊢
          linarith

end Page

namespace Page

theorem q_mul_ofInt_den (r : Q) (k : Int) : (r * Q.ofInt k).den = r.den := by
  show (Q.mul r (Q.ofInt k)).den = r.den
  simp [Q.mul, Q.ofInt]

theorem weightedChoice_avoid {α : Type} [DecidableEq α] (dflt : α) (u : Q)
    (weights : List (α × Int)) (disallow : List α)
    (hden : 0 < u.den) (h0 : 0 ≤ u.toRat) (h1 : u.toRat < 1)
    (hpos : 0 < wsum disallow weights) :
    weightedChoice dflt u weights disallow ∉ disallow := by
  have hcast : (0 : ℚ) < ((wsum disallow weights : Int) : ℚ) := by
    exact_mod_cast hpos
  unfold weightedChoice
  dsimp only
  rw [wsum_foldl disallow weights 0, zero_add]
  refine wcGo_avoid disallow _ weights _ ?_ ?_ ?_
  · rw [q_mul_ofInt_den]
    exact hden
  · rw [Q.toRat_mul, q_ofInt_toRat]
    exact mul_nonneg h0 (le_of_lt hcast)
  · rw [Q.toRat_mul, q_ofInt_toRat]
    calc u.toRat * ((wsum disallow weights : Int) : ℚ)
        < 1 * ((wsum disallow weights : Int) : ℚ) :=
          mul_lt_mul_of_pos_right h1 hcast
      _ = ((wsum disallow weights : Int) : ℚ) := one_mul _

theorem mulberryMix_lt (a : Nat) : mulberryMix a < 4294967296 := by
  unfold mulberryMix
  dsimp only
  have h32 : (4294967296 : Nat) = 2 ^ 32 := by norm_num
  have h1 : imul (a ^^^ (a >>> 15)) (1 ||| a) < 2 ^ 32 := by
    rw [← h32]
    exact Nat.mod_lt _ (by norm_num)
  have h2 : ((imul (a ^^^ (a >>> 15)) (1 ||| a) +
      imul (imul (a ^^^ (a >>> 15)) (1 ||| a) ^^^
        (imul (a ^^^ (a >>> 15)) (1 ||| a) >>> 7))
        (61 ||| imul (a ^^^ (a >>> 15)) (1 ||| a))) % 4294967296) ^^^
      imul (a ^^^ (a >>> 15)) (1 ||| a) < 2 ^ 32 := by
    refine Nat.xor_lt_two_pow ?_ h1
    rw [← h32]
    exact Nat.mod_lt _ (by norm_num)
  rw [h32]
  refine Nat.xor_lt_two_pow h2 ?_
  refine lt_of_le_of_lt ?_ h2
  rw [Nat.shiftRight_eq_div_pow]
  exact Nat.div_le_self _ _

theorem rand_den (st : Nat) : (rand st).1.den = 4294967296 := rfl

theorem rand_toRat_nonneg (st : Nat) : 0 ≤ (rand st).1.toRat := by
  unfold rand
  dsimp only
  unfold Q.toRat
  refine div_nonneg ?_ (by norm_num)
  dsimp only
  positivity

theorem rand_toRat_lt_one (st : Nat) : (rand st).1.toRat < 1 := by
  unfold rand
  dsimp only
  unfold Q.toRat
  dsimp only
  rw [div_lt_one (by norm_num)]
  exact_mod_cast mulberryMix_lt _

end Page

/-! ## Lemmas: healthy pools survive the per-ball pulse additions -/

theorem wset_length_le {α β : Type} [DecidableEq α] :
    ∀ (w : List (α × β)) (k : α) (v : β),
      w.length ≤ (wset w k v).length := by
  intro w
  induction w with
  | nil => intro k v; simp [wset]
  | cons p rest ih =>
    intro k v
    rcases p with ⟨a, b⟩
    simp only [wset]
    split
    · simp
    · simpa using ih k v

theorem wset_keys_nodup {α β : Type} [DecidableEq α] :
    ∀ (w : List (α × β)) (k : α) (v : β),
      (w.map (·.1)).Nodup → ((wset w k v).map (·.1)).Nodup := by
  intro w
  induction w with
  | nil => intro k v _; simp [wset]
  | cons p rest ih =>
    intro k v hnd
    rcases p with ⟨a, b⟩
    simp only [List.map_cons, List.nodup_cons] at hnd
    obtain ⟨ha, hnd⟩ := hnd
    simp only [wset]
    by_cases hak : a = k
    · rw [if_pos hak]
      simp only [List.map_cons, List.nodup_cons]
      exact ⟨ha, hnd⟩
    · rw [if_neg hak]
      simp only [List.map_cons, List.nodup_cons]
      refine ⟨?_, ih k v hnd⟩
      intro hmem
      have := wset_keys_subset (k :: rest.map (·.1)) rest k v
        (fun x hx => List.mem_cons_of_mem _ hx) (List.mem_cons_self _ _)
        a hmem
      rcases (List.mem_cons).mp this with rfl | hc
      · exact hak rfl
      · exact ha hc

theorem wset_forall_pos {α : Type} [DecidableEq α] :
    ∀ (w : List (α × Int)) (k : α) (v : Int),
      (∀ p ∈ w, 0 < p.2) → 0 < v →
      ∀ p ∈ wset w k v, 0 < p.2 := by
  intro w
  induction w with
  | nil =>
    intro k v _ hv p hp
    simp only [wset, List.mem_singleton] at hp
    subst hp
    exact hv
  | cons q rest ih =>
    intro k v hw hv p hp
    rcases q with ⟨a, b⟩
    simp only [wset] at hp
    by_cases hak : a = k
    · rw [if_pos hak] at hp
      rcases (List.mem_cons).mp hp with rfl | hp
      · exact hv
      · exact hw _ (List.mem_cons_of_mem _ hp)
    · rw [if_neg hak] at hp
      rcases (List.mem_cons).mp hp with rfl | hp
      · exact hw _ (List.mem_cons_self _ _)
      · exact ih k v (fun q hq => hw q (List.mem_cons_of_mem _ hq)) hv p hp

theorem wget_getD_nonneg {α : Type} [DecidableEq α] (w : List (α × Int))
    (k : α) (hw : ∀ p ∈ w, 0 < p.2) : 0 ≤ (wget w k).getD 0 := by
  unfold wget
  rcases hf : w.find? (fun p => p.1 = k) with _ | p
  · rw [hf]
    simp
  · rw [hf]
    exact le_of_lt (hw p (List.mem_of_find?_eq_some hf))

namespace Page

theorem goodPool_wadd (w : List (Ball × Int)) (k : Ball) (δ : Int)
    (hg : goodPool w) (hδ : 0 < δ) : goodPool (wadd w k 0 δ) := by
  obtain ⟨hlen, hnd, hpos⟩ := hg
  refine ⟨le_trans hlen (wset_length_le w k _), wset_keys_nodup w k _ hnd, ?_⟩
  refine wset_forall_pos w k _ hpos ?_
  have := wget_getD_nonneg w k hpos
  omega

theorem goodPool_ite (c : Prop) [Decidable c] (w w' : List (Ball × Int))
    (h : goodPool w) (h' : goodPool w') : goodPool (if c then w' else w) := by
  split
  · exact h'
  · exact h

theorem localTypeFor_good (c : Ctx) (i : Nat)
    (hg : goodPool (c.typesBase.filter (fun p => c.allowed.contains p.1))) :
    goodPool (localTypeFor c i) := by
  unfold localTypeFor
  dsimp only
  have hemp : (c.typesBase.filter
      (fun p => c.allowed.contains p.1)).isEmpty = false := by
    rcases h : c.typesBase.filter (fun p => c.allowed.contains p.1)
      with _ | ⟨p, r⟩
    · obtain ⟨hlen, _, _⟩ := hg
      rw [h] at hlen
      simp at hlen
    · rw [h]
      rfl
  rw [hemp]
  simp only [Bool.false_eq_true, if_false]
  repeat' first
    | exact hg
    | (refine goodPool_wadd _ _ _ ?_ (by decide))
    | (refine goodPool_ite _ _ _ ?_ ?_)

end Page

/-! ## Lemmas: positivity of the derived page-engine type weights -/

namespace Page

theorem pacePos_base (ph : PhaseId) : PacePos (paceBase ph) := by
  cases ph <;> (simp only [PacePos, paceBase]; decide)

theorem pacePos_primary (p : PacePrimary) (w : PaceW) (h : PacePos w) :
    PacePos (pacePrimaryBoost p w) := by
  simp only [PacePos] at h ⊢
  cases p <;> (dsimp only [pacePrimaryBoost]; omega)

theorem pacePos_pitch (pi : PitchType) (w : PaceW) (h : PacePos w) :
    PacePos (pacePitchBoost pi w) := by
  simp only [PacePos] at h ⊢
  cases pi <;> (dsimp only [pacePitchBoost]; omega)

theorem pacePos_arm (arm : Arm) (w : PaceW) (h : PacePos w) :
    PacePos (paceArmBoost arm w) := by
  unfold paceArmBoost
  simp only [PacePos] at h ⊢
  split_ifs <;> (try dsimp only) <;> omega

theorem pacePos_ps1 (s : List (List Nat)) (w : PaceW) (h : PacePos w) :
    PacePos (paceStrengthS1 s w) := by
  unfold paceStrengthS1
  simp only [PacePos] at h ⊢
  split_ifs <;> (try dsimp only) <;> omega

theorem pacePos_ps2 (s : List (List Nat)) (w : PaceW) (h : PacePos w) :
    PacePos (paceStrengthS2 s w) := by
  unfold paceStrengthS2
  simp only [PacePos] at h ⊢
  split_ifs <;> (try dsimp only) <;> omega

theorem pacePos_ps3 (s : List (List Nat)) (w : PaceW) (h : PacePos w) :
    PacePos (paceStrengthS3 s w) := by
  unfold paceStrengthS3
  simp only [PacePos] at h ⊢
  split_ifs <;> (try dsimp only) <;> omega

theorem pacePos_ps4 (s : List (List Nat)) (w : PaceW) (h : PacePos w) :
    PacePos (paceStrengthS4 s w) := by
  unfold paceStrengthS4
  simp only [PacePos] at h ⊢
  split_ifs <;> (try dsimp only) <;> omega

theorem pacePos_ps5 (s : List (List Nat)) (w : PaceW) (h : PacePos w) :
    PacePos (paceStrengthS5 s w) := by
  unfold paceStrengthS5
  simp only [PacePos] at h ⊢
  split_ifs <;> (try dsimp only) <;> omega

theorem pacePos_ps6 (s : List (List Nat)) (w : PaceW) (h : PacePos w) :
    PacePos (paceStrengthS6 s w) := by
  unfold paceStrengthS6
  simp only [PacePos] at h ⊢
  split_ifs <;> (try dsimp only) <;> omega

theorem pacePos_ps7 (s : List (List Nat)) (w : PaceW) (h : PacePos w) :
    PacePos (paceStrengthS7 s w) := by
  unfold paceStrengthS7
  simp only [PacePos] at h ⊢
  split_ifs <;> (try dsimp only) <;> omega

theorem pacePos_ps8 (s : List (List Nat)) (w : PaceW) (h : PacePos w) :
    PacePos (paceStrengthS8 s w) := by
  unfold paceStrengthS8
  simp only [PacePos] at h ⊢
  split_ifs <;> (try dsimp only) <;> omega

theorem pacePos_strength (s : List (List Nat)) (w : PaceW) (h : PacePos w) :
    PacePos (paceStrengthBoost s w) :=
  pacePos_ps8 s _ (pacePos_ps7 s _ (pacePos_ps6 s _ (pacePos_ps5 s _
    (pacePos_ps4 s _ (pacePos_ps3 s _ (pacePos_ps2 s _
      (pacePos_ps1 s w h)))))))

theorem pacePos_strategy (s : List Nat) (w : PaceW) (h : PacePos w) :
    PacePos (paceStrategyBoost s w) := by
  unfold paceStrategyBoost
  dsimp only
  simp only [PacePos] at h ⊢
  split_ifs <;> (try dsimp only) <;> omega

theorem derivePaceWeights_pos (b : Bowler) (ph : PhaseId) (pi : PitchType)
    (s : List (List Nat)) (st : List Nat) :
    PacePos (derivePaceWeights b ph pi s st) := by
  unfold derivePaceWeights
  dsimp only
  exact pacePos_strategy _ _ (pacePos_strength _ _ (pacePos_arm _ _
    (pacePos_pitch _ _ (pacePos_primary _ _ (pacePos_base ph)))))

theorem spinPos_base (ph : PhaseId) : SpinPos (spinBase ph) := by
  cases ph <;> (simp only [SpinPos, spinBase]; decide)

theorem spinPos_primary (p : SpinPrimary) (w : SpinW) (h : SpinPos w) :
    SpinPos (spinPrimaryBoost p w) := by
  simp only [SpinPos] at h ⊢
  cases p <;> (dsimp only [spinPrimaryBoost]; omega)

theorem spinPos_pitch (pi : PitchType) (w : SpinW) (h : SpinPos w) :
    SpinPos (spinPitchBoost pi w) := by
  simp only [SpinPos] at h ⊢
  cases pi <;> (dsimp only [spinPitchBoost]; omega)

theorem spinPos_ss1 (s : List (List Nat)) (w : SpinW) (h : SpinPos w) :
    SpinPos (spinStrengthS1 s w) := by
  unfold spinStrengthS1
  simp only [SpinPos] at h ⊢
  split_ifs <;> (try dsimp only) <;> omega

theorem spinPos_ss2 (s : List (List Nat)) (w : SpinW) (h : SpinPos w) :
    SpinPos (spinStrengthS2 s w) := by
  unfold spinStrengthS2
  simp only [SpinPos] at h ⊢
  split_ifs <;> (try dsimp only) <;> omega

theorem spinPos_ss3 (s : List (List Nat)) (w : SpinW) (h : SpinPos w) :
    SpinPos (spinStrengthS3 s w) := by
  unfold spinStrengthS3
  simp only [SpinPos] at h ⊢
  split_ifs <;> (try dsimp only) <;> omega

theorem spinPos_ss4 (s : List (List Nat)) (w : SpinW) (h : SpinPos w) :
    SpinPos (spinStrengthS4 s w) := by
  unfold spinStrengthS4
  simp only [SpinPos] at h ⊢
  split_ifs <;> (try dsimp only) <;> omega

theorem spinPos_ss5 (s : List (List Nat)) (w : SpinW) (h : SpinPos w) :
    SpinPos (spinStrengthS5 s w) := by
  unfold spinStrengthS5
  simp only [SpinPos] at h ⊢
  split_ifs <;> (try dsimp only) <;> omega

theorem spinPos_ss6 (s : List (List Nat)) (w : SpinW) (h : SpinPos w) :
    SpinPos (spinStrengthS6 s w) := by
  unfold spinStrengthS6
  simp only [SpinPos] at h ⊢
  split_ifs <;> (try dsimp only) <;> omega

theorem spinPos_ss7 (s : List (List Nat)) (w : SpinW) (h : SpinPos w) :
    SpinPos (spinStrengthS7 s w) := by
  unfold spinStrengthS7
  simp only [SpinPos] at h ⊢
  split_ifs <;> (try dsimp only) <;> omega

theorem spinPos_strength (s : List (List Nat)) (w : SpinW) (h : SpinPos w) :
    SpinPos (spinStrengthBoost s w) :=
  spinPos_ss7 s _ (spinPos_ss6 s _ (spinPos_ss5 s _ (spinPos_ss4 s _
    (spinPos_ss3 s _ (spinPos_ss2 s _ (spinPos_ss1 s w h))))))

theorem spinPos_strategy (s : List Nat) (w : SpinW) (h : SpinPos w) :
    SpinPos (spinStrategyBoost s w) := by
  unfold spinStrategyBoost
  dsimp only
  simp only [SpinPos] at h ⊢
  split_ifs <;> (try dsimp only) <;> omega

theorem spinPos_leftArm (t : BowlerType) (w : SpinW) (h : SpinPos w) :
    SpinPos (spinLeftArmBoost t w) := by
  unfold spinLeftArmBoost
  simp only [SpinPos] at h ⊢
  split_ifs <;> (try dsimp only) <;> omega

theorem spinPreClamp_pos (b : Bowler) (ph : PhaseId) (pi : PitchType)
    (s : List (List Nat)) (st : List Nat) :
    SpinPos (spinLeftArmBoost b.btype (spinStrategyBoost st
      (spinStrengthBoost s (spinPitchBoost pi
        (spinPrimaryBoost (primarySpinStyle b s) (spinBase ph)))))) :=
  spinPos_leftArm _ _ (spinPos_strategy _ _ (spinPos_strength _ _
    (spinPos_pitch _ _ (spinPos_primary _ _ (spinPos_base ph)))))

end Page


namespace Page

theorem mkCtx_goodPool (b : Bowler) (ph : PhaseId) (pi : PitchType) :
    goodPool ((mkCtx b ph pi).typesBase.filter
      (fun p => (mkCtx b ph pi).allowed.contains p.1)) := by
  have hall : (mkCtx b ph pi).allowed = allowedTypesFor b := rfl
  cases hsp : hasSub (btypeCodes b.btype) (codes "spin")
  · rw [mkCtx_typesBase_pace b ph pi hsp, hall,
      allowedTypesFor_of_not_spin b hsp]
    have hp := derivePaceWeights_pos b ph pi
      (b.strengths.map lowerCodes) (lowerCodes b.strategies)
    simp only [PacePos] at hp
    obtain ⟨p1, p2, p3, p4, p5, p6, p7⟩ := hp
    have hfe : (PaceW.toList (derivePaceWeights b ph pi
        (b.strengths.map lowerCodes) (lowerCodes b.strategies))).filter
        (fun p => ([.outswing, .inswing, .seam, .cutter, .slowerBall,
          .knuckle, .bouncer] : List Ball).contains p.1) =
        PaceW.toList (derivePaceWeights b ph pi
          (b.strengths.map lowerCodes) (lowerCodes b.strategies)) := rfl
    rw [hfe]
    refine ⟨by simp [PaceW.toList], ?_, ?_⟩
    · have hmap : (PaceW.toList (derivePaceWeights b ph pi
          (b.strengths.map lowerCodes) (lowerCodes b.strategies))).map
          (·.1) = [Ball.outswing, .inswing, .seam, .cutter, .slowerBall,
            .knuckle, .bouncer] := rfl
      rw [hmap]
      decide
    · intro p hp
      simp only [PaceW.toList, List.mem_cons, List.not_mem_nil,
        or_false] at hp
      rcases hp with rfl | rfl | rfl | rfl | rfl | rfl | rfl
      · exact p1
      · exact p2
      · exact p3
      · exact p4
      · exact p5
      · exact p6
      · exact p7
  · rw [mkCtx_typesBase_spin b ph pi hsp, hall]
    have hp := spinPreClamp_pos b ph pi
      ((b.strengths.map lowerCodes).map lowerCodes)
      (lowerCodes (lowerCodes b.strategies))
    simp only [SpinPos] at hp
    obtain ⟨s1, s2, s3, s4, s5, s6, s7⟩ := hp
    cases hb : b.btype
    case legspin =>
      have hal : allowedTypesFor b = [.legBreak, .googly, .topSpinner] := by
        simp [allowedTypesFor, hb]
      have hcl : ∀ k : Ball, (allowedTypesFor b).contains k =
          ([.legBreak, .googly, .topSpinner] : List Ball).contains k := by
        intro k
        rw [hal]
      rw [hal]
      have hfe : (SpinW.toList (deriveSpinWeights b ph pi
          (b.strengths.map lowerCodes) (lowerCodes b.strategies))).filter
          (fun p => ([.legBreak, .googly, .topSpinner] :
            List Ball).contains p.1) =
          [(Ball.legBreak, (deriveSpinWeights b ph pi
             (b.strengths.map lowerCodes) (lowerCodes b.strategies)).legBreak),
           (Ball.googly, (deriveSpinWeights b ph pi
             (b.strengths.map lowerCodes) (lowerCodes b.strategies)).googly),
           (Ball.topSpinner, (deriveSpinWeights b ph pi
             (b.strengths.map lowerCodes)
             (lowerCodes b.strategies)).topSpinner)] := rfl
      rw [hfe]
      refine ⟨by simp, by simp, ?_⟩
      intro p hpm
      simp only [List.mem_cons, List.not_mem_nil, or_false] at hpm
      rcases hpm with rfl | rfl | rfl
      all_goals
        unfold deriveSpinWeights
        dsimp only
        unfold spinClamp
        dsimp only
        rw [hcl, if_pos (by decide)]
      · exact s1
      · exact s2
      · exact s3
    case offspin =>
      have hal : allowedTypesFor b =
          [.offBreak, .armBall, .carrom, .topSpinner] := by
        simp [allowedTypesFor, hb]
      have hcl : ∀ k : Ball, (allowedTypesFor b).contains k =
          ([.offBreak, .armBall, .carrom, .topSpinner] :
            List Ball).contains k := by
        intro k
        rw [hal]
      rw [hal]
      have hfe : (SpinW.toList (deriveSpinWeights b ph pi
          (b.strengths.map lowerCodes) (lowerCodes b.strategies))).filter
          (fun p => ([.offBreak, .armBall, .carrom, .topSpinner] :
            List Ball).contains p.1) =
          [(Ball.topSpinner, (deriveSpinWeights b ph pi
             (b.strengths.map lowerCodes)
             (lowerCodes b.strategies)).topSpinner),
           (Ball.offBreak, (deriveSpinWeights b ph pi
             (b.strengths.map lowerCodes) (lowerCodes b.strategies)).offBreak),
           (Ball.armBall, (deriveSpinWeights b ph pi
             (b.strengths.map lowerCodes) (lowerCodes b.strategies)).armBall),
           (Ball.carrom, (deriveSpinWeights b ph pi
             (b.strengths.map lowerCodes)
             (lowerCodes b.strategies)).carrom)] := rfl
      rw [hfe]
      refine ⟨by simp, by simp, ?_⟩
      intro p hpm
      simp only [List.mem_cons, List.not_mem_nil, or_false] at hpm
      rcases hpm with rfl | rfl | rfl | rfl
      all_goals
        unfold deriveSpinWeights
        dsimp only
        unfold spinClamp
        dsimp only
        rw [hcl, if_pos (by decide)]
      · exact s3
      · exact s5
      · exact s6
      · exact s7
    case leftarmSpin =>
      have hal : allowedTypesFor b =
          [.offBreak, .armBall, .carrom, .topSpinner] := by
        simp [allowedTypesFor, hb]
      have hcl : ∀ k : Ball, (allowedTypesFor b).contains k =
          ([.offBreak, .armBall, .carrom, .topSpinner] :
            List Ball).contains k := by
        intro k
        rw [hal]
      rw [hal]
      have hfe : (SpinW.toList (deriveSpinWeights b ph pi
          (b.strengths.map lowerCodes) (lowerCodes b.strategies))).filter
          (fun p => ([.offBreak, .armBall, .carrom, .topSpinner] :
            List Ball).contains p.1) =
          [(Ball.topSpinner, (deriveSpinWeights b ph pi
             (b.strengths.map lowerCodes)
             (lowerCodes b.strategies)).topSpinner),
           (Ball.offBreak, (deriveSpinWeights b ph pi
             (b.strengths.map lowerCodes) (lowerCodes b.strategies)).offBreak),
           (Ball.armBall, (deriveSpinWeights b ph pi
             (b.strengths.map lowerCodes) (lowerCodes b.strategies)).armBall),
           (Ball.carrom, (deriveSpinWeights b ph pi
             (b.strengths.map lowerCodes)
             (lowerCodes b.strategies)).carrom)] := rfl
      rw [hfe]
      refine ⟨by simp, by simp, ?_⟩
      intro p hpm
      simp only [List.mem_cons, List.not_mem_nil, or_false] at hpm
      rcases hpm with rfl | rfl | rfl | rfl
      all_goals
        unfold deriveSpinWeights
        dsimp only
        unfold spinClamp
        dsimp only
        rw [hcl, if_pos (by decide)]
      · exact s3
      · exact s5
      · exact s6
      · exact s7
    case pace => rw [hb] at hsp; exact absurd hsp (by decide)
    case swing => rw [hb] at hsp; exact absurd hsp (by decide)
    case seam => rw [hb] at hsp; exact absurd hsp (by decide)
    case leftarmPace => rw [hb] at hsp; exact absurd hsp (by decide)

end Page

namespace Page

theorem wsum_single_pos (t : Ball) (w : List (Ball × Int))
    (hg : goodPool w) : 0 < wsum [t] w := by
  obtain ⟨hlen, hnd, hpos⟩ := hg
  rcases w with _ | ⟨p, w1⟩
  · simp at hlen
  rcases w1 with _ | ⟨q, w2⟩
  · simp at hlen
  have hne : p.1 ≠ q.1 := by
    simp only [List.map_cons, List.nodup_cons, List.mem_cons,
      not_or] at hnd
    exact hnd.1.1
  have hp := hpos p (List.mem_cons_self _ _)
  have hq := hpos q (List.mem_cons_of_mem _ (List.mem_cons_self _ _))
  have hrest := wsum_nonneg ([t] : List Ball) w2
  simp only [wsum]
  by_cases hpt : p.1 = t
  · have hqt : q.1 ≠ t := fun h => hne (by rw [hpt, h])
    rw [if_pos (by simp [hpt]), if_neg (by simp [hqt])]
    have hmq : max 0 q.2 = q.2 := max_eq_right (le_of_lt hq)
    omega
  · rw [if_neg (by simp [hpt])]
    have hmp : max 0 p.2 = p.2 := max_eq_right (le_of_lt hp)
    have h2 : (0 : Int) ≤
        (if ([t] : List Ball).contains q.1 then 0 else max 0 q.2) := by
      split
    
      · exact le_refl 0
      · exact le_max_left _ _
    omega

theorem disallowFor_sing (rec : List Ball) (t : Ball) (rest : List Ball)
    (hd : disallowFor rec = t :: rest) : rest = [] := by
  unfold disallowFor at hd
  dsimp only at hd
  split_ifs at hd
  injection hd with h1 h2
  exact h2.symm

theorem bvpStep_avoid (c : Ctx) (i st : Nat) (rec : List Ball)
    (hg : goodPool (localTypeFor c i)) :
    (disallowFor rec).contains ((bvpStep c i st rec).1.type) = false := by
  have hty : (bvpStep c i st rec).1.type =
      weightedChoice .seam (rand st).1 (localTypeFor c i)
        (disallowFor rec) := rfl
  rw [hty]
  rcases hd : disallowFor rec with _ | ⟨t, rest⟩
  · rfl
  · have hrest := disallowFor_sing rec t rest hd
    subst hrest
    have havoid := weightedChoice_avoid Ball.seam (rand st).1
      (localTypeFor c i) [t] (by rw [rand_den]; norm_num)
      (rand_toRat_nonneg st) (rand_toRat_lt_one st)
      (wsum_single_pos t _ hg)
    simpa using havoid

theorem bvpLoop_noTriple (c : Ctx)
    (hg : ∀ i, goodPool (localTypeFor c i)) :
    ∀ (n i st : Nat) (rec : List Ball),
      noTripleAux rec ((bvpLoop c n i st rec).map (·.type)) = true := by
  intro n
  induction n with
  | zero => intro i st rec; rfl
  | succ k ih =>
    intro i st rec
    simp only [bvpLoop]
    rcases hstep : bvpStep c i st rec with ⟨d, st', rec'⟩
    dsimp only
    simp only [List.map_cons, noTripleAux, Bool.and_eq_true]
    constructor
    · have hav := bvpStep_avoid c i st rec (hg i)
      rw [hstep] at hav
      simpa using hav
    · have hrec : rec' = recPush rec d.type := by
        have h2 : (bvpStep c i st rec).2.2 =
            recPush rec ((bvpStep c i st rec).1.type) := rfl
        rw [hstep] at h2
        exact h2
      rw [← hrec]
      exact ih (i + 1) st' rec'

theorem recPush_len (rec : List Ball) (t : Ball) (h : rec.length ≤ 2) :
    (recPush rec t).length ≤ 2 := by
  unfold recPush
  dsimp only
  split
  · rw [List.length_tail, List.length_append]
    simp
    omega
  · rename_i hlen
    simp only [not_lt] at hlen
    rw [List.length_append] at hlen ⊢
    simpa using hlen

theorem recPush_twice (rec : List Ball) (t : Ball) (h : rec.length ≤ 2) :
    recPush (recPush rec t) t = [t, t] := by
  rcases rec with _ | ⟨a, rec1⟩
  · rfl
  rcases rec1 with _ | ⟨b, rec2⟩
  · rfl
  rcases rec2 with _ | ⟨e, rec3⟩
  · rfl
  · simp at h

theorem noTripleAux_no_run :
    ∀ (l : List Ball) (rec : List Ball), rec.length ≤ 2 →
      noTripleAux rec l = true → ∀ (i : Nat) (t : Ball),
      ¬(l[i]? = some t ∧ l[i + 1]? = some t ∧ l[i + 2]? = some t) := by
  intro l
  induction l with
  | nil =>
    intro rec _ _ i t hcon
    obtain ⟨h1, _, _⟩ := hcon
    cases h1
  | cons a l' ih =>
    intro rec hlen h i t hcon
    obtain ⟨h1, h2, h3⟩ := hcon
    cases i with
    | succ j =>
      simp only [List.getElem?_cons_succ] at h1 h2 h3
      simp only [noTripleAux, Bool.and_eq_true] at h
      exact ih (recPush rec a) (recPush_len rec a hlen) h.2 j t ⟨h1, h2, h3⟩
    | zero =>
      rcases l' with _ | ⟨b, l2⟩
      · cases h2
      rcases l2 with _ | ⟨e, l3⟩
      · cases h3
      simp only [List.getElem?_cons_zero, List.getElem?_cons_succ,
        Option.some.injEq] at h1 h2 h3
      rw [h1, h2, h3] at h
      simp only [noTripleAux, Bool.and_eq_true] at h
      obtain ⟨-, -, h3', -⟩ := h
      rw [recPush_twice rec t hlen] at h3'
      simp [disallowFor] at h3'

end Page

/-! ## Claim C5 -/

set_option maxRecDepth 100000 in
/-- C5 counterexample: the lib engine has no anti-streak mechanism. The
leg-spin bowler's 12-ball middle/Normal run with salt "s1" carries the
Googly at positions 1, 2 and 3 - all outside the trap window {4, 5, 6}
(the window starts at 12/2-2 = 4) - even though the delivery pool holds
alternative types of positive weight (every spin type has base weight
1 ≥ 1/1 > 0). -/
theorem c5_counterexample :
    (((Lib.generateDeliveries Lib.sampleLegSpin 12 .middle .normal
        (codes "s1")).map (fun d => d.type)).drop 1).take 3 =
      [.googly, .googly, .googly] ∧
    12 / 2 - 2 = 4 ∧
    ((Lib.gdCtx Lib.sampleLegSpin .middle .normal).delPool.any
      (fun p => decide (p.1 ≠ Lib.DeliveryType.googly) &&
        decide (0 < p.2.num) && decide (0 < p.2.den))) = true := by
  refine ⟨by decide, by decide, by decide⟩

/-- C5 amended: the anti-streak invariant holds unconditionally for the
page engine (`buildVariedPlan`): its per-ball draw passes the repeated
recent type as a disallow list into `weightedChoice`, and every local
type pool has at least two distinct keys of positive weight, so
`noTriple` accepts every generated type sequence; and `noTriple`
semantically excludes any run of three consecutive equal types. The lib
engine (`generateDeliveries`) has no such mechanism (see the
counterexample). -/
theorem c5_amended :
    (∀ (b : Page.Bowler) (overs : Nat) (ph : Page.PhaseId)
        (pi : Page.PitchType) (salt : List Nat),
      Page.noTriple ((Page.buildVariedPlan b overs ph pi salt).map
        (·.type)) = true) ∧
    (∀ (l : List Page.Ball), Page.noTriple l = true →
      ∀ (i : Nat) (t : Page.Ball),
        ¬(l[i]? = some t ∧ l[i + 1]? = some t ∧ l[i + 2]? = some t)) := by
  constructor
  · intro b overs ph pi salt
    unfold Page.buildVariedPlan Page.noTriple
    dsimp only
    exact Page.bvpLoop_noTriple (Page.mkCtx b ph pi)
      (fun i => Page.localTypeFor_good (Page.mkCtx b ph pi) i
        (Page.mkCtx_goodPool b ph pi)) _ 0 _ []
  · intro l h i t
    unfold Page.noTriple at h
    exact Page.noTripleAux_no_run l [] (by simp) h i t

/-- C5 amended, witnessed: the page-engine leg-spin plan's type sequence
passes `noTriple`, and on the concrete sequence [seam, seam, outswing]
(which `noTriple` accepts) no index starts a triple run. -/
theorem c5_amended_witness :
    Page.noTriple ((Page.buildVariedPlan Page.sampleLegSpin 1 .middle
      .normal (codes "w")).map (·.type)) = true ∧
    ¬(([Page.Ball.seam, .seam, .outswing] : List Page.Ball)[0]? =
        some Page.Ball.seam ∧
      ([Page.Ball.seam, .seam, .outswing] : List Page.Ball)[0 + 1]? =
        some Page.Ball.seam ∧
      ([Page.Ball.seam, .seam, .outswing] : List Page.Ball)[0 + 2]? =
        some Page.Ball.seam) :=
  ⟨c5_amended.1 Page.sampleLegSpin 1 .middle .normal (codes "w"),
   c5_amended.2 [Page.Ball.seam, .seam, .outswing] (by decide) 0
     Page.Ball.seam⟩

/-! ## Lemmas: page-engine coherence corrections -/

namespace Page

theorem bvpStep_coherence (c : Ctx) (i st : Nat) (rec : List Ball) :
    ((bvpStep c i st rec).1.type = .bouncer →
      (bvpStep c i st rec).1.length ≠ .yorker →
      (bvpStep c i st rec).1.line = .atBody) ∧
    ((bvpStep c i st rec).1.length = .yorker →
      (bvpStep c i st rec).1.line = .fourthFifthStump ∨
      (bvpStep c i st rec).1.line = .offStump ∨
      (bvpStep c i st rec).1.line = .outsideOff) := by
  unfold bvpStep
  dsimp only
  constructor
  · intro htype hlen
    rw [if_pos htype]
    rw [if_neg (fun hc => hlen hc.1)]
  · intro hlen
    by_cases hmem :
        (if (weightedChoice Ball.seam (rand st).1 (localTypeFor c i)
            (disallowFor rec)) = Ball.bouncer then Line.atBody
         else weightedChoice Line.outsideOff
           (rand ((rand ((rand st).2)).2)).1 (localLineFor c i).toList [])
          = Line.fourthFifthStump ∨
        (if (weightedChoice Ball.seam (rand st).1 (localTypeFor c i)
            (disallowFor rec)) = Ball.bouncer then Line.atBody
         else weightedChoice Line.outsideOff
           (rand ((rand ((rand st).2)).2)).1 (localLineFor c i).toList [])
          = Line.offStump ∨
        (if (weightedChoice Ball.seam (rand st).1 (localTypeFor c i)
            (disallowFor rec)) = Ball.bouncer then Line.atBody
         else weightedChoice Line.outsideOff
           (rand ((rand ((rand st).2)).2)).1 (localLineFor c i).toList [])
          = Line.outsideOff
    · rw [if_neg (fun hc => hc.2 hmem)]
      exact hmem
    · rw [if_pos ⟨hlen, hmem⟩]
      exact Or.inr (Or.inl rfl)

theorem bvpLoop_coherence (c : Ctx) :
    ∀ (n i st : Nat) (rec : List Ball) (d : Delivery),
      d ∈ bvpLoop c n i st rec →
      ((d.type = .bouncer → d.length ≠ .yorker → d.line = .atBody) ∧
       (d.length = .yorker → d.line = .fourthFifthStump ∨
         d.line = .offStump ∨ d.line = .outsideOff)) := by
  intro n
  induction n with
  | zero => intro i st rec d h; cases h
  | succ k ih =>
    intro i st rec d h
    simp only [bvpLoop] at h
    cases h with
    | head => exact bvpStep_coherence c i st rec
    | tail _ h => exact ih _ _ _ _ h

theorem buildVariedPlan_coherence (b : Bowler) (overs : Nat)
    (ph : PhaseId) (pi : PitchType) (salt : List Nat) (d : Delivery)
    (hd : d ∈ buildVariedPlan b overs ph pi salt) :
    (d.type = .bouncer → d.length ≠ .yorker → d.line = .atBody) ∧
    (d.length = .yorker → d.line = .fourthFifthStump ∨
      d.line = .offStump ∨ d.line = .outsideOff) :=
  bvpLoop_coherence (mkCtx b ph pi) (max 1 overs * 6) 0
    (variedSeed b overs ph pi salt) [] d hd

theorem bvpStep_spin_short_remap (c : Ctx) (i st : Nat) (rec : List Ball)
    (hspin : c.isSpin = true)
    (hshort : weightedChoice Length.short (rand ((rand st).2)).1
      (localLengthFor c i).toList [] = .short)
    (hu4 : (rand ((rand ((rand ((rand st).2)).2)).2)).1 < Q.tenths 6) :
    (bvpStep c i st rec).1.length = .backOfLength := by
  unfold bvpStep
  dsimp only
  rw [if_pos (⟨by rw [hspin], hshort⟩ :
    (c.isSpin = true) ∧ weightedChoice Length.short (rand ((rand st).2)).1
      (localLengthFor c i).toList [] = Length.short)]
  dsimp only
  rw [if_pos hu4]

theorem bvpStep_spin_short_keep (c : Ctx) (i st : Nat) (rec : List Ball)
    (hspin : c.isSpin = true)
    (hshort : weightedChoice Length.short (rand ((rand st).2)).1
      (localLengthFor c i).toList [] = .short)
    (hu4 : ¬((rand ((rand ((rand ((rand st).2)).2)).2)).1 < Q.tenths 6)) :
    (bvpStep c i st rec).1.length = .short := by
  unfold bvpStep
  dsimp only
  rw [if_pos (⟨by rw [hspin], hshort⟩ :
    (c.isSpin = true) ∧ weightedChoice Length.short (rand ((rand st).2)).1
      (localLengthFor c i).toList [] = Length.short)]
  dsimp only
  rw [if_neg hu4]
  exact hshort

end Page

/-! ## Claim C8 -/

set_option maxRecDepth 100000 in
/-- C8 counterexample: the lib engine applies no coherence corrections.
In the seam bowler's one-over powerplay/Normal plan (`buildOverPlan`),
the delivery at index 5 - outside the trap window {1, 2, 3} starting at
6/2-2 = 1 - is a Bouncer on a Good length at 4th stump, not at-body as
the claim requires of every bouncer. -/
theorem c8_counterexample :
    ((Lib.buildOverPlan Lib.sampleSeam 1 .powerplay .normal).map
      (fun d => (d.type, d.length, d.line)))[5]? =
      some (.bouncer, .good, .fourthStump) ∧
    6 / 2 - 2 = 1 ∧
    Lib.Line.fourthStump ≠ Lib.Line.atBody := by
  refine ⟨by decide, by decide, by decide⟩

/-- C8 amended: the coherence corrections belong to the page engine
(`buildVariedPlan`) only, with one precedence subtlety: the yorker line
clamp runs after the bouncer fix, so a bouncer is forced to at-body only
when its resolved length is not a yorker; every yorker-length delivery
has line in {4th/5th stump, off stump, outside off}; and for a spin
context a short length draw is remapped to back-of-length exactly when
the dedicated follow-up stream value is below 6/10 - below it the
length becomes back-of-length, at or above it the short length is
kept. The lib engine has no coherence step at all (see the
counterexample). -/
theorem c8_amended :
    (∀ (b : Page.Bowler) (overs : Nat) (ph : Page.PhaseId)
        (pi : Page.PitchType) (salt : List Nat) (d : Page.Delivery),
      d ∈ Page.buildVariedPlan b overs ph pi salt →
      d.type = .bouncer → d.length ≠ .yorker → d.line = .atBody) ∧
    (∀ (b : Page.Bowler) (overs : Nat) (ph : Page.PhaseId)
        (pi : Page.PitchType) (salt : List Nat) (d : Page.Delivery),
      d ∈ Page.buildVariedPlan b overs ph pi salt →
      d.length = .yorker → d.line = .fourthFifthStump ∨
        d.line = .offStump ∨ d.line = .outsideOff) ∧
    (∀ (c : Page.Ctx) (i st : Nat) (rec : List Page.Ball),
      c.isSpin = true →
      Page.weightedChoice Page.Length.short (rand ((rand st).2)).1
        (Page.localLengthFor c i).toList [] = .short →
      (rand ((rand ((rand ((rand st).2)).2)).2)).1 < Q.tenths 6 →
      (Page.bvpStep c i st rec).1.length = .backOfLength) ∧
    (∀ (c : Page.Ctx) (i st : Nat) (rec : List Page.Ball),
      c.isSpin = true →
      Page.weightedChoice Page.Length.short (rand ((rand st).2)).1
        (Page.localLengthFor c i).toList [] = .short →
      ¬((rand ((rand ((rand ((rand st).2)).2)).2)).1 < Q.tenths 6) →
      (Page.bvpStep c i st rec).1.length = .short) := by
  refine ⟨?_, ?_, ?_, ?_⟩
  · intro b overs ph pi salt d hd ht hl
    exact (Page.buildVariedPlan_coherence b overs ph pi salt d hd).1 ht hl
  · intro b overs ph pi salt d hd hl
    exact (Page.buildVariedPlan_coherence b overs ph pi salt d hd).2 hl
  · intro c i st rec h1 h2 h3
    exact Page.bvpStep_spin_short_remap c i st rec h1 h2 h3
  · intro c i st rec h1 h2 h3
    exact Page.bvpStep_spin_short_keep c i st rec h1 h2 h3

set_option maxRecDepth 400000 in
set_option maxHeartbeats 4000000 in
/-- C8 amended, witnessed: in the pace bowler's powerplay/Normal plan
with salt "y", ball 2 is a non-yorker bouncer resolved at-body and ball
3 is a yorker resolved at off stump; for the leg-spin context from PRNG
state 0 the short length draw is remapped to back-of-length (follow-up
value below 6/10), while from state 1 the follow-up value is at least
6/10 and the short length is kept. -/
theorem c8_amended_witness :
    (⟨1, 2, .bouncer, .goodLength, .atBody,
      "push back, surprise top-edge"⟩ : Page.Delivery).line =
      Page.Line.atBody ∧
    ((⟨1, 3, .slowerBall, .yorker, .offStump,
        "base of stumps / toes"⟩ : Page.Delivery).line =
        Page.Line.fourthFifthStump ∨
      (⟨1, 3, .slowerBall, .yorker, .offStump,
        "base of stumps / toes"⟩ : Page.Delivery).line =
        Page.Line.offStump ∨
      (⟨1, 3, .slowerBall, .yorker, .offStump,
        "base of stumps / toes"⟩ : Page.Delivery).line =
        Page.Line.outsideOff) ∧
    (Page.bvpStep (Page.mkCtx Page.sampleLegSpin .middle .normal) 0 0
      []).1.length = .backOfLength ∧
    (Page.bvpStep (Page.mkCtx Page.sampleLegSpin .middle .normal) 0 1
      []).1.length = .short :=
  ⟨c8_amended.1 Page.samplePace 1 .powerplay .normal (codes "y")
     ⟨1, 2, .bouncer, .goodLength, .atBody,
       "push back, surprise top-edge"⟩ (by decide) (by decide) (by decide),
   c8_amended.2.1 Page.samplePace 1 .powerplay .normal (codes "y")
     ⟨1, 3, .slowerBall, .yorker, .offStump,
       "base of stumps / toes"⟩ (by decide) (by decide),
   c8_amended.2.2.1 (Page.mkCtx Page.sampleLegSpin .middle .normal) 0 0 []
     (by decide) (by decide) (by decide),
   c8_amended.2.2.2 (Page.mkCtx Page.sampleLegSpin .middle .normal) 0 1 []
     (by decide) (by decide) (by decide)⟩
